import Mathlib

/-!
Shallow embedding of the interactive staircase controller (`src/src/main.cpp`).

The firmware is single-threaded: `loop()` repeatedly calls `readSensors()` and
then `sequenceHandler()`.  We model one pass of the loop as a pure function of
the global state together with the current value of the millisecond clock and
the two (already normalized, active-low) sensor readings.  The `millis()`
counter is modelled as an unbounded `Nat` (an idealized monotonic millisecond
clock); elapsed-time checks `millis() - stamp > d` become `now - stamp > d`
with truncated `Nat` subtraction, which agrees with the `uint32_t` arithmetic
of the source whenever `now ≥ stamp`, i.e. on every reachable comparison.
DMX traffic (`dmx.write` / `dmx.update`) is modelled as an output list of
`BusOp` values emitted by a pass.
-/

set_option maxHeartbeats 1000000
set_option maxRecDepth 100000

def DEBOUNCE_DELAY : Nat := 2000
def STEP_UPDATE_DELAY : Nat := 550
def STEP_CLEAR_DELAY : Nat := 2300
def NUM_OF_STEPS : Nat := 16
def MAX_ACTIVE_SEQUENCES : Nat := 3

/-- One operation on the DMX lighting bus: `dmx.write(channel, value)` or a
frame commit `dmx.update()`. -/
inductive BusOp where
  | write (channel value : Nat)
  | commit
deriving DecidableEq

/-- The global mutable state of `main.cpp`: the per-direction slot arrays, the
per-(slot, step) clear records, and the shared sensor debounce timestamps.
Arrays are modelled as total functions from `Nat`; the code only ever accesses
indices below `MAX_ACTIVE_SEQUENCES` (and `NUM_OF_STEPS` for the second
dimension). -/
structure SysState where
  sequence_active_up : Nat → Bool
  currentStep : Nat → Nat
  stepUpdateMillis : Nat → Nat
  stepClearUpdateMillisUp : Nat → Nat → Nat
  upSeq_active : Nat → Nat → Bool
  sequence_active_down : Nat → Bool
  currentStepDown : Nat → Nat
  stepUpdateMillisDown : Nat → Nat
  stepClearUpdateMillisDown : Nat → Nat → Nat
  downSeq_active : Nat → Nat → Bool
  sensorUpdateMillis : Nat
  stripClearMillis : Nat

/-- The C initializers.  Note `uint8_t currentStepDown[MAX] = {NUM_OF_STEPS}`
sets only element 0 to `NUM_OF_STEPS` and the remaining elements to 0. -/
def initState : SysState where
  sequence_active_up := fun _ => false
  currentStep := fun _ => 0
  stepUpdateMillis := fun _ => 0
  stepClearUpdateMillisUp := fun _ _ => 0
  upSeq_active := fun _ _ => false
  sequence_active_down := fun _ => false
  currentStepDown := fun i => if i = 0 then NUM_OF_STEPS else 0
  stepUpdateMillisDown := fun _ => 0
  stepClearUpdateMillisDown := fun _ _ => 0
  downSeq_active := fun _ _ => false
  sensorUpdateMillis := 0
  stripClearMillis := 0

/-- `showStep`: one full-intensity write followed by the double frame commit. -/
def showStep (step : Nat) : List BusOp :=
  [BusOp.write step 255, BusOp.commit, BusOp.commit]

/-- `clearStep`: one zero-intensity write followed by the double frame commit. -/
def clearStep (step : Nat) : List BusOp :=
  [BusOp.write step 0, BusOp.commit, BusOp.commit]

/-- Point update of a two-dimensional array-as-function. -/
def upd2 {α : Type} (f : Nat → Nat → α) (i j : Nat) (v : α) : Nat → Nat → α :=
  fun a b => if a = i ∧ b = j then v else f a b

/-- Guard of the `upSequence` loop body for slot `i`: the slot is active, its
per-slot step interval has elapsed, and `currentStep[i] < NUM_OF_STEPS`. -/
def upFires (s : SysState) (now i : Nat) : Bool :=
  s.sequence_active_up i &&
    decide (STEP_UPDATE_DELAY < now - s.stepUpdateMillis i) &&
    decide (s.currentStep i < NUM_OF_STEPS)

/-- Body of the `upSequence` loop for index `i`, threading the state and the
emitted bus operations. -/
def upSeqBody (now : Nat) (acc : SysState × List BusOp) (i : Nat) :
    SysState × List BusOp :=
  let s := acc.1
  if upFires s now i then
    let c := s.currentStep i
    let afterStep : SysState :=
      { s with
        stepUpdateMillis := Function.update s.stepUpdateMillis i now
        stepClearUpdateMillisUp := upd2 s.stepClearUpdateMillisUp i c now
        upSeq_active := upd2 s.upSeq_active i c true
        currentStep := Function.update s.currentStep i (c + 1) }
    let afterDone : SysState :=
      if c + 1 = NUM_OF_STEPS then
        { afterStep with
          sequence_active_up := Function.update afterStep.sequence_active_up i false
          currentStep := Function.update afterStep.currentStep i 0 }
      else afterStep
    (afterDone, acc.2 ++ showStep (c + 1))
  else acc

/-- `upSequence()`: iterate the body over all slots in index order. -/
def upSequence (s : SysState) (now : Nat) : SysState × List BusOp :=
  (List.range MAX_ACTIVE_SEQUENCES).foldl (upSeqBody now) (s, [])

/-- Guard of the `downSequence` loop body for slot `i`. -/
def downFires (s : SysState) (now i : Nat) : Bool :=
  s.sequence_active_down i &&
    decide (STEP_UPDATE_DELAY < now - s.stepUpdateMillisDown i) &&
    decide (0 < s.currentStepDown i)

/-- Body of the `downSequence` loop for index `i`. -/
def downSeqBody (now : Nat) (acc : SysState × List BusOp) (i : Nat) :
    SysState × List BusOp :=
  let s := acc.1
  if downFires s now i then
    let c := s.currentStepDown i
    let afterStep : SysState :=
      { s with
        stepUpdateMillisDown := Function.update s.stepUpdateMillisDown i now
        stepClearUpdateMillisDown := upd2 s.stepClearUpdateMillisDown i (c - 1) now
        downSeq_active := upd2 s.downSeq_active i (c - 1) true
        currentStepDown := Function.update s.currentStepDown i (c - 1) }
    let afterDone : SysState :=
      if c - 1 = 0 then
        { afterStep with
          sequence_active_down := Function.update afterStep.sequence_active_down i false
          currentStepDown := Function.update afterStep.currentStepDown i NUM_OF_STEPS }
      else afterStep
    (afterDone, acc.2 ++ showStep c)
  else acc

/-- `downSequence()`: iterate the body over all slots in index order. -/
def downSequence (s : SysState) (now : Nat) : SysState × List BusOp :=
  (List.range MAX_ACTIVE_SEQUENCES).foldl (downSeqBody now) (s, [])

/-- The scan of `triggerUpSequence`: the first slot with `active == 0`. -/
def firstFreeUp (s : SysState) : Option Nat :=
  (List.range MAX_ACTIVE_SEQUENCES).find? (fun i => !s.sequence_active_up i)

/-- `triggerUpSequence()`: allocate the first free ascending slot, if any. -/
def triggerUpSequence (s : SysState) (now : Nat) : SysState :=
  match firstFreeUp s with
  | none => s
  | some i =>
    { s with
      sequence_active_up := Function.update s.sequence_active_up i true
      currentStep := Function.update s.currentStep i 0
      stepUpdateMillis := Function.update s.stepUpdateMillis i now }

/-- The scan of `triggerDownSequence`: the first slot with `active == 0`. -/
def firstFreeDown (s : SysState) : Option Nat :=
  (List.range MAX_ACTIVE_SEQUENCES).find? (fun i => !s.sequence_active_down i)

/-- `triggerDownSequence()`: allocate the first free descending slot, if any. -/
def triggerDownSequence (s : SysState) (now : Nat) : SysState :=
  match firstFreeDown s with
  | none => s
  | some i =>
    { s with
      sequence_active_down := Function.update s.sequence_active_down i true
      currentStepDown := Function.update s.currentStepDown i NUM_OF_STEPS
      stepUpdateMillisDown := Function.update s.stepUpdateMillisDown i now }

/-- Guard of the clear sweep for the ascending record `(i, j)`. -/
def clearUpFires (s : SysState) (now i j : Nat) : Bool :=
  decide (STEP_CLEAR_DELAY < now - s.stepClearUpdateMillisUp i j) &&
    s.upSeq_active i j

/-- Guard of the clear sweep for the descending record `(i, j)`. -/
def clearDownFires (s : SysState) (now i j : Nat) : Bool :=
  decide (STEP_CLEAR_DELAY < now - s.stepClearUpdateMillisDown i j) &&
    s.downSeq_active i j

/-- Body of the `clearSequence` double loop for the pair `(i, j)`: first the
ascending record, then the descending record. -/
def clearSeqBody (now : Nat) (acc : SysState × List BusOp) (p : Nat × Nat) :
    SysState × List BusOp :=
  let i := p.1
  let j := p.2
  let acc1 :=
    if clearUpFires acc.1 now i j then
      ({ acc.1 with upSeq_active := upd2 acc.1.upSeq_active i j false },
        acc.2 ++ clearStep (j + 1))
    else acc
  if clearDownFires acc1.1 now i j then
    ({ acc1.1 with downSeq_active := upd2 acc1.1.downSeq_active i j false },
      acc1.2 ++ clearStep (j + 1))
  else acc1

/-- The index pairs visited by the `clearSequence` nested loops, in order. -/
def stepPairs : List (Nat × Nat) :=
  (List.range MAX_ACTIVE_SEQUENCES).flatMap
    (fun i => (List.range NUM_OF_STEPS).map (fun j => (i, j)))

/-- `clearSequence()`: sweep every `(slot, step)` record of both directions. -/
def clearSequence (s : SysState) (now : Nat) : SysState × List BusOp :=
  stepPairs.foldl (clearSeqBody now) (s, [])

/-- The `anySequenceActiveUp` scan of `readSensors` / `sequenceHandler`. -/
def anySequenceActiveUp (s : SysState) : Bool :=
  (List.range MAX_ACTIVE_SEQUENCES).any fun i => s.sequence_active_up i

/-- The `anySequenceActiveDown` scan of `readSensors` / `sequenceHandler`. -/
def anySequenceActiveDown (s : SysState) : Bool :=
  (List.range MAX_ACTIVE_SEQUENCES).any fun i => s.sequence_active_down i

/-- The `allStepsClearedUp` scan of `readSensors`. -/
def allStepsClearedUp (s : SysState) : Bool :=
  (List.range MAX_ACTIVE_SEQUENCES).all fun i =>
    (List.range NUM_OF_STEPS).all fun j => !s.upSeq_active i j

/-- The `allStepsClearedDown` scan of `readSensors`. -/
def allStepsClearedDown (s : SysState) : Bool :=
  (List.range MAX_ACTIVE_SEQUENCES).all fun i =>
    (List.range NUM_OF_STEPS).all fun j => !s.downSeq_active i j

/-- The full branch condition under which `readSensors` accepts an ascending
trigger: the descending direction is fully quiescent, SENSOR1 reads active,
and the shared debounce window has elapsed. -/
def acceptedUp (s : SysState) (now : Nat) (sensor1 : Bool) : Bool :=
  !anySequenceActiveDown s && allStepsClearedDown s && sensor1 &&
    decide (DEBOUNCE_DELAY ≤ now - s.sensorUpdateMillis)

/-- The full branch condition under which `readSensors` accepts a descending
trigger.  The activity flags are the ones scanned at the top of the function
(before any ascending trigger of the same call), while the debounce timestamp
is read live, hence the inner conditional. -/
def acceptedDown (s : SysState) (now : Nat) (sensor1 sensor2 : Bool) : Bool :=
  !anySequenceActiveUp s && allStepsClearedUp s && sensor2 &&
    decide (DEBOUNCE_DELAY ≤
      now - (if acceptedUp s now sensor1 then now else s.sensorUpdateMillis))

/-- `readSensors()`.  `sensor1` / `sensor2` are the normalized active-low
readings (`digitalRead(SENSORn) == LOW`). -/
def readSensors (s : SysState) (now : Nat) (sensor1 sensor2 : Bool) : SysState :=
  let s1 :=
    if !anySequenceActiveDown s && allStepsClearedDown s && sensor1 &&
        decide (DEBOUNCE_DELAY ≤ now - s.sensorUpdateMillis) then
      triggerUpSequence
        { s with sensorUpdateMillis := now, stripClearMillis := now } now
    else s
  if !anySequenceActiveUp s && allStepsClearedUp s && sensor2 &&
      decide (DEBOUNCE_DELAY ≤ now - s1.sensorUpdateMillis) then
    triggerDownSequence
      { s1 with sensorUpdateMillis := now, stripClearMillis := now } now
  else s1

/-- The advancer part of `sequenceHandler()`: run `upSequence` if any ascending
slot is active, then `downSequence` if any descending slot is active. -/
def advancerPart (s : SysState) (now : Nat) : SysState × List BusOp :=
  let r1 := if anySequenceActiveUp s then upSequence s now else (s, [])
  let r2 :=
    if anySequenceActiveDown r1.1 then downSequence r1.1 now else (r1.1, [])
  (r2.1, r1.2 ++ r2.2)

/-- `sequenceHandler()`: advancer passes followed unconditionally by the clear
sweep. -/
def sequenceHandler (s : SysState) (now : Nat) : SysState × List BusOp :=
  let a := advancerPart s now
  let r3 := clearSequence a.1 now
  (r3.1, a.2 ++ r3.2)

/-- One pass of `loop()`: `readSensors()` then `sequenceHandler()`. -/
def tick (s : SysState) (now : Nat) (sensor1 sensor2 : Bool) :
    SysState × List BusOp :=
  sequenceHandler (readSensors s now sensor1 sensor2) now

/-- States reachable from power-on by iterating `loop()` with arbitrary clock
readings and sensor inputs. -/
inductive Reachable : SysState → Prop where
  | init : Reachable initState
  | step (s : SysState) (now : Nat) (b1 b2 : Bool) :
      Reachable s → Reachable (tick s now b1 b2).1

/-- Follow ascending slot `i` through a run: collect the clock values of the
passes in which the slot illuminates a step, stopping as soon as the slot is
freed.  The second component records whether the slot was freed during the
run. -/
def waveRun (i : Nat) : SysState → List (Nat × Bool × Bool) → List Nat × Bool
  | _, [] => ([], false)
  | s, (now, b1, b2) :: rest =>
    let t := (tick s now b1 b2).1
    let evs :=
      if upFires (readSensors s now b1 b2) now i then [now] else []
    if t.sequence_active_up i then
      let r := waveRun i t rest
      (evs ++ r.1, r.2)
    else (evs, true)

/-- A bus stream is a sequence of logical writes, each being one `dmx.write`
followed by exactly two consecutive `dmx.update()` commits. -/
def wellFormedStream : List BusOp → Bool
  | [] => true
  | BusOp.write _ _ :: BusOp.commit :: BusOp.commit :: rest =>
      wellFormedStream rest
  | _ => false

/-- Number of slots (of both directions together) that transition from
inactive to active between state `s` and state `t`. -/
def allocCount (s t : SysState) : Nat :=
  ((List.range MAX_ACTIVE_SEQUENCES).filter
      (fun i => !s.sequence_active_up i && t.sequence_active_up i)).length +
  ((List.range MAX_ACTIVE_SEQUENCES).filter
      (fun i => !s.sequence_active_down i && t.sequence_active_down i)).length

/-- Number of triggers accepted by one `readSensors` call. -/
def acceptedCount (s : SysState) (now : Nat) (sensor1 sensor2 : Bool) : Nat :=
  (if acceptedUp s now sensor1 then 1 else 0) +
    (if acceptedDown s now sensor1 sensor2 then 1 else 0)

/-- Agreement of two states on all ascending data of slot `k`. -/
abbrev upSlotAgrees (t s : SysState) (k : Nat) : Prop :=
  t.sequence_active_up k = s.sequence_active_up k ∧
  t.currentStep k = s.currentStep k ∧
  t.stepUpdateMillis k = s.stepUpdateMillis k ∧
  (∀ j, t.stepClearUpdateMillisUp k j = s.stepClearUpdateMillisUp k j) ∧
  (∀ j, t.upSeq_active k j = s.upSeq_active k j)

/-- Agreement of two states on all descending data of slot `k`. -/
abbrev downSlotAgrees (t s : SysState) (k : Nat) : Prop :=
  t.sequence_active_down k = s.sequence_active_down k ∧
  t.currentStepDown k = s.currentStepDown k ∧
  t.stepUpdateMillisDown k = s.stepUpdateMillisDown k ∧
  (∀ j, t.stepClearUpdateMillisDown k j = s.stepClearUpdateMillisDown k j) ∧
  (∀ j, t.downSeq_active k j = s.downSeq_active k j)

/-- The ascending direction is visually in flight: some ascending slot is
active or some ascending step record is still lit. -/
def upBusy (s : SysState) : Bool :=
  anySequenceActiveUp s || !allStepsClearedUp s

/-- The descending direction is visually in flight. -/
def downBusy (s : SysState) : Bool :=
  anySequenceActiveDown s || !allStepsClearedDown s

/-- A state with every ascending slot occupied and the descending direction
fully quiescent (used as a concrete evaluation point). -/
def stateFullUp : SysState :=
  { initState with
    sequence_active_up := fun _ => true
    currentStep := fun _ => 5 }

/-- A state with exactly ascending slot 0 freshly allocated at time 0. -/
def stateOneUp : SysState :=
  { initState with sequence_active_up := fun k => decide (k = 0) }

/-- A state whose descending record (0, 0) is still lit (slots all free). -/
def stateDownLit : SysState :=
  { initState with downSeq_active := fun i j => decide (i = 0 ∧ j = 0) }

/-- A state whose ascending record (0, 0) is still lit (slots all free). -/
def stateUpLit : SysState :=
  { initState with upSeq_active := fun i j => decide (i = 0 ∧ j = 0) }

/-! ### Basic lemmas about the scans and the allocators -/

theorem anyActiveUp_true_iff (s : SysState) :
    anySequenceActiveUp s = true ↔
      ∃ i, i < MAX_ACTIVE_SEQUENCES ∧ s.sequence_active_up i = true := by
  simp [anySequenceActiveUp, List.any_eq_true, List.mem_range]

theorem anyActiveDown_true_iff (s : SysState) :
    anySequenceActiveDown s = true ↔
      ∃ i, i < MAX_ACTIVE_SEQUENCES ∧ s.sequence_active_down i = true := by
  simp [anySequenceActiveDown, List.any_eq_true, List.mem_range]

theorem allClearedUp_true_iff (s : SysState) :
    allStepsClearedUp s = true ↔
      ∀ i, i < MAX_ACTIVE_SEQUENCES → ∀ j, j < NUM_OF_STEPS →
        s.upSeq_active i j = false := by
  simp [allStepsClearedUp, List.all_eq_true, List.mem_range]

theorem allClearedDown_true_iff (s : SysState) :
    allStepsClearedDown s = true ↔
      ∀ i, i < MAX_ACTIVE_SEQUENCES → ∀ j, j < NUM_OF_STEPS →
        s.downSeq_active i j = false := by
  simp [allStepsClearedDown, List.all_eq_true, List.mem_range]

theorem firstFreeUp_some (s : SysState) (k : Nat) (h : firstFreeUp s = some k) :
    k < MAX_ACTIVE_SEQUENCES ∧ s.sequence_active_up k = false ∧
      ∀ m, m < k → s.sequence_active_up m = true := by
  have hr : List.range MAX_ACTIVE_SEQUENCES = [0, 1, 2] := rfl
  unfold firstFreeUp at h
  rw [hr] at h
  cases h0 : s.sequence_active_up 0 <;> cases h1 : s.sequence_active_up 1 <;>
    cases h2 : s.sequence_active_up 2 <;>
      simp [List.find?, h0, h1, h2] at h <;> subst h
  all_goals refine ⟨by decide, by assumption, ?_⟩
  all_goals intro m hm
  all_goals interval_cases m <;> assumption

theorem firstFreeUp_none (s : SysState) (h : firstFreeUp s = none) :
    ∀ i, i < MAX_ACTIVE_SEQUENCES → s.sequence_active_up i = true := by
  have hr : List.range MAX_ACTIVE_SEQUENCES = [0, 1, 2] := rfl
  unfold firstFreeUp at h
  rw [hr] at h
  cases h0 : s.sequence_active_up 0 <;> cases h1 : s.sequence_active_up 1 <;>
    cases h2 : s.sequence_active_up 2 <;>
      simp [List.find?, h0, h1, h2] at h
  intro i hi
  have hi3 : i < 3 := hi
  interval_cases i <;> assumption

theorem firstFreeDown_some (s : SysState) (k : Nat)
    (h : firstFreeDown s = some k) :
    k < MAX_ACTIVE_SEQUENCES ∧ s.sequence_active_down k = false ∧
      ∀ m, m < k → s.sequence_active_down m = true := by
  have hr : List.range MAX_ACTIVE_SEQUENCES = [0, 1, 2] := rfl
  unfold firstFreeDown at h
  rw [hr] at h
  cases h0 : s.sequence_active_down 0 <;> cases h1 : s.sequence_active_down 1 <;>
    cases h2 : s.sequence_active_down 2 <;>
      simp [List.find?, h0, h1, h2] at h <;> subst h
  all_goals refine ⟨by decide, by assumption, ?_⟩
  all_goals intro m hm
  all_goals interval_cases m <;> assumption

theorem firstFreeDown_none (s : SysState) (h : firstFreeDown s = none) :
    ∀ i, i < MAX_ACTIVE_SEQUENCES → s.sequence_active_down i = true := by
  have hr : List.range MAX_ACTIVE_SEQUENCES = [0, 1, 2] := rfl
  unfold firstFreeDown at h
  rw [hr] at h
  cases h0 : s.sequence_active_down 0 <;> cases h1 : s.sequence_active_down 1 <;>
    cases h2 : s.sequence_active_down 2 <;>
      simp [List.find?, h0, h1, h2] at h
  intro i hi
  have hi3 : i < 3 := hi
  interval_cases i <;> assumption

theorem triggerUpSequence_misc (s : SysState) (now : Nat) :
    (triggerUpSequence s now).sequence_active_down = s.sequence_active_down ∧
    (triggerUpSequence s now).currentStepDown = s.currentStepDown ∧
    (triggerUpSequence s now).stepUpdateMillisDown = s.stepUpdateMillisDown ∧
    (triggerUpSequence s now).stepClearUpdateMillisDown =
      s.stepClearUpdateMillisDown ∧
    (triggerUpSequence s now).downSeq_active = s.downSeq_active ∧
    (triggerUpSequence s now).upSeq_active = s.upSeq_active ∧
    (triggerUpSequence s now).stepClearUpdateMillisUp =
      s.stepClearUpdateMillisUp ∧
    (triggerUpSequence s now).sensorUpdateMillis = s.sensorUpdateMillis ∧
    (triggerUpSequence s now).stripClearMillis = s.stripClearMillis := by
  unfold triggerUpSequence
  cases firstFreeUp s <;> simp

theorem triggerDownSequence_misc (s : SysState) (now : Nat) :
    (triggerDownSequence s now).sequence_active_up = s.sequence_active_up ∧
    (triggerDownSequence s now).currentStep = s.currentStep ∧
    (triggerDownSequence s now).stepUpdateMillis = s.stepUpdateMillis ∧
    (triggerDownSequence s now).stepClearUpdateMillisUp =
      s.stepClearUpdateMillisUp ∧
    (triggerDownSequence s now).upSeq_active = s.upSeq_active ∧
    (triggerDownSequence s now).downSeq_active = s.downSeq_active ∧
    (triggerDownSequence s now).stepClearUpdateMillisDown =
      s.stepClearUpdateMillisDown ∧
    (triggerDownSequence s now).sensorUpdateMillis = s.sensorUpdateMillis ∧
    (triggerDownSequence s now).stripClearMillis = s.stripClearMillis := by
  unfold triggerDownSequence
  cases firstFreeDown s <;> simp

theorem triggerUpSequence_active_frame (s : SysState) (now i : Nat)
    (h : s.sequence_active_up i = true) :
    (triggerUpSequence s now).sequence_active_up i = s.sequence_active_up i ∧
    (triggerUpSequence s now).currentStep i = s.currentStep i ∧
    (triggerUpSequence s now).stepUpdateMillis i = s.stepUpdateMillis i := by
  cases hf : firstFreeUp s with
  | none => simp [triggerUpSequence, hf]
  | some k =>
    obtain ⟨-, hk2, -⟩ := firstFreeUp_some s k hf
    have hik : i ≠ k := by
      intro he
      rw [he, hk2] at h
      cases h
    simp [triggerUpSequence, hf, Function.update_apply, hik]

theorem triggerDownSequence_active_frame (s : SysState) (now i : Nat)
    (h : s.sequence_active_down i = true) :
    (triggerDownSequence s now).sequence_active_down i =
      s.sequence_active_down i ∧
    (triggerDownSequence s now).currentStepDown i = s.currentStepDown i ∧
    (triggerDownSequence s now).stepUpdateMillisDown i =
      s.stepUpdateMillisDown i := by
  cases hf : firstFreeDown s with
  | none => simp [triggerDownSequence, hf]
  | some k =>
    obtain ⟨-, hk2, -⟩ := firstFreeDown_some s k hf
    have hik : i ≠ k := by
      intro he
      rw [he, hk2] at h
      cases h
    simp [triggerDownSequence, hf, Function.update_apply, hik]

theorem readSensors_eq (s : SysState) (now : Nat) (b1 b2 : Bool) :
    readSensors s now b1 b2 =
      if acceptedUp s now b1 then
        triggerUpSequence
          { s with sensorUpdateMillis := now, stripClearMillis := now } now
      else if acceptedDown s now b1 b2 then
        triggerDownSequence
          { s with sensorUpdateMillis := now, stripClearMillis := now } now
      else s := by
  unfold readSensors
  cases hU : acceptedUp s now b1 with
  | true =>
    have hs1 : (triggerUpSequence
        { s with sensorUpdateMillis := now, stripClearMillis := now }
        now).sensorUpdateMillis = now :=
      (triggerUpSequence_misc _ now).2.2.2.2.2.2.2.1
    have hdeb : decide (DEBOUNCE_DELAY ≤ now - now) = false := by
      rw [Nat.sub_self]
      rfl
    unfold acceptedUp at hU
    simp only [hU, if_true, hs1, hdeb, Bool.and_false, Bool.false_eq_true,
      if_false]
  | false =>
    unfold acceptedUp at hU
    simp only [hU, Bool.false_eq_true, if_false, acceptedDown, acceptedUp]

/-! ### The `upSequence` loop -/

theorem upSeqBody_fst_other (now : Nat) (acc : SysState × List BusOp)
    (i k : Nat) (hk : k ≠ i) : upSlotAgrees (upSeqBody now acc i).1 acc.1 k := by
  simp only [upSeqBody]
  split
  · refine ⟨?_, ?_, ?_, fun j => ?_, fun j => ?_⟩ <;>
      split <;> simp [Function.update_apply, upd2, hk]
  · exact ⟨rfl, rfl, rfl, fun j => rfl, fun j => rfl⟩

theorem upSeqBody_misc (now : Nat) (acc : SysState × List BusOp) (i : Nat) :
    (upSeqBody now acc i).1.sequence_active_down = acc.1.sequence_active_down ∧
    (upSeqBody now acc i).1.currentStepDown = acc.1.currentStepDown ∧
    (upSeqBody now acc i).1.stepUpdateMillisDown =
      acc.1.stepUpdateMillisDown ∧
    (upSeqBody now acc i).1.stepClearUpdateMillisDown =
      acc.1.stepClearUpdateMillisDown ∧
    (upSeqBody now acc i).1.downSeq_active = acc.1.downSeq_active ∧
    (upSeqBody now acc i).1.sensorUpdateMillis = acc.1.sensorUpdateMillis ∧
    (upSeqBody now acc i).1.stripClearMillis = acc.1.stripClearMillis := by
  simp only [upSeqBody]
  split
  · refine ⟨?_, ?_, ?_, ?_, ?_, ?_, ?_⟩ <;> split <;> simp
  · exact ⟨rfl, rfl, rfl, rfl, rfl, rfl, rfl⟩

theorem upSeqBody_self (now : Nat) (acc : SysState × List BusOp) (i : Nat) :
    (upFires acc.1 now i = false → upSeqBody now acc i = acc) ∧
    (upFires acc.1 now i = true →
      (upSeqBody now acc i).1.stepUpdateMillis i = now ∧
      (upSeqBody now acc i).1.currentStep i =
        (if acc.1.currentStep i + 1 = NUM_OF_STEPS then 0
         else acc.1.currentStep i + 1) ∧
      (upSeqBody now acc i).1.sequence_active_up i =
        (if acc.1.currentStep i + 1 = NUM_OF_STEPS then false else true) ∧
      (∀ j, (upSeqBody now acc i).1.stepClearUpdateMillisUp i j =
        (if j = acc.1.currentStep i then now
         else acc.1.stepClearUpdateMillisUp i j)) ∧
      (∀ j, (upSeqBody now acc i).1.upSeq_active i j =
        (if j = acc.1.currentStep i then true else acc.1.upSeq_active i j)) ∧
      (upSeqBody now acc i).2 = acc.2 ++ showStep (acc.1.currentStep i + 1)) := by
  constructor
  · intro hf
    simp only [upSeqBody, hf, Bool.false_eq_true, if_false]
  · intro hf
    have hact : acc.1.sequence_active_up i = true := by
      have hf2 := hf
      simp only [upFires, Bool.and_eq_true] at hf2
      exact hf2.1.1
    simp only [upSeqBody, hf, if_true]
    refine ⟨?_, ?_, ?_, fun j => ?_, fun j => ?_, by simp⟩ <;>
      split <;> simp [Function.update_apply, upd2, hact]

theorem upFold_fst_other (now : Nat) (l : List Nat)
    (acc : SysState × List BusOp) (k : Nat) (hk : k ∉ l) :
    upSlotAgrees (l.foldl (upSeqBody now) acc).1 acc.1 k := by
  induction l generalizing acc with
  | nil => exact ⟨rfl, rfl, rfl, fun j => rfl, fun j => rfl⟩
  | cons a t ih =>
    have hka : k ≠ a := fun he => hk (he ▸ List.mem_cons_self a t)
    have hkt : k ∉ t := fun hm => hk (List.mem_cons_of_mem a hm)
    have hb := upSeqBody_fst_other now acc a k hka
    have hi := ih (upSeqBody now acc a) hkt
    simp only [List.foldl_cons]
    exact ⟨hi.1.trans hb.1, hi.2.1.trans hb.2.1, hi.2.2.1.trans hb.2.2.1,
      fun j => (hi.2.2.2.1 j).trans (hb.2.2.2.1 j),
      fun j => (hi.2.2.2.2 j).trans (hb.2.2.2.2 j)⟩

theorem upFold_misc (now : Nat) (l : List Nat)
    (acc : SysState × List BusOp) :
    (l.foldl (upSeqBody now) acc).1.sequence_active_down =
      acc.1.sequence_active_down ∧
    (l.foldl (upSeqBody now) acc).1.currentStepDown = acc.1.currentStepDown ∧
    (l.foldl (upSeqBody now) acc).1.stepUpdateMillisDown =
      acc.1.stepUpdateMillisDown ∧
    (l.foldl (upSeqBody now) acc).1.stepClearUpdateMillisDown =
      acc.1.stepClearUpdateMillisDown ∧
    (l.foldl (upSeqBody now) acc).1.downSeq_active = acc.1.downSeq_active ∧
    (l.foldl (upSeqBody now) acc).1.sensorUpdateMillis =
      acc.1.sensorUpdateMillis ∧
    (l.foldl (upSeqBody now) acc).1.stripClearMillis =
      acc.1.stripClearMillis := by
  induction l generalizing acc with
  | nil => exact ⟨rfl, rfl, rfl, rfl, rfl, rfl, rfl⟩
  | cons a t ih =>
    have hb := upSeqBody_misc now acc a
    have hi := ih (upSeqBody now acc a)
    simp only [List.foldl_cons]
    exact ⟨hi.1.trans hb.1, hi.2.1.trans hb.2.1, hi.2.2.1.trans hb.2.2.1,
      hi.2.2.2.1.trans hb.2.2.2.1, hi.2.2.2.2.1.trans hb.2.2.2.2.1,
      hi.2.2.2.2.2.1.trans hb.2.2.2.2.2.1,
      hi.2.2.2.2.2.2.trans hb.2.2.2.2.2.2⟩

theorem upFold_run (now : Nat) (s : SysState) :
    ∀ (l : List Nat), l.Nodup →
      ∀ (acc : SysState × List BusOp), (∀ k ∈ l, upSlotAgrees acc.1 s k) →
        (∀ k ∈ l,
          (upFires s now k = false →
            upSlotAgrees (l.foldl (upSeqBody now) acc).1 s k) ∧
          (upFires s now k = true →
            (l.foldl (upSeqBody now) acc).1.stepUpdateMillis k = now ∧
            (l.foldl (upSeqBody now) acc).1.currentStep k =
              (if s.currentStep k + 1 = NUM_OF_STEPS then 0
               else s.currentStep k + 1) ∧
            (l.foldl (upSeqBody now) acc).1.sequence_active_up k =
              (if s.currentStep k + 1 = NUM_OF_STEPS then false else true) ∧
            (∀ j, (l.foldl (upSeqBody now) acc).1.stepClearUpdateMillisUp k j =
              (if j = s.currentStep k then now
               else s.stepClearUpdateMillisUp k j)) ∧
            (∀ j, (l.foldl (upSeqBody now) acc).1.upSeq_active k j =
              (if j = s.currentStep k then true else s.upSeq_active k j)))) ∧
        (l.foldl (upSeqBody now) acc).2 =
          acc.2 ++ (l.map (fun k =>
            if upFires s now k then showStep (s.currentStep k + 1)
            else [])).flatten := by
  intro l
  induction l with
  | nil =>
    intro _ acc _
    exact ⟨fun k hk => absurd hk (List.not_mem_nil k), by simp⟩
  | cons a t ih =>
    intro hnd acc hag
    obtain ⟨hat, hndt⟩ := List.nodup_cons.mp hnd
    have hagA := hag a (List.mem_cons_self a t)
    have hfeq : upFires acc.1 now a = upFires s now a := by
      unfold upFires
      rw [hagA.1, hagA.2.1, hagA.2.2.1]
    have hag' : ∀ k ∈ t, upSlotAgrees (upSeqBody now acc a).1 s k := by
      intro k hkt
      have hka : k ≠ a := fun he => hat (he ▸ hkt)
      have hb := upSeqBody_fst_other now acc a k hka
      have h0 := hag k (List.mem_cons_of_mem a hkt)
      exact ⟨hb.1.trans h0.1, hb.2.1.trans h0.2.1, hb.2.2.1.trans h0.2.2.1,
        fun j => (hb.2.2.2.1 j).trans (h0.2.2.2.1 j),
        fun j => (hb.2.2.2.2 j).trans (h0.2.2.2.2 j)⟩
    have IH := ih hndt (upSeqBody now acc a) hag'
    have hself := upSeqBody_self now acc a
    constructor
    · intro k hk
      rcases List.mem_cons.mp hk with rfl | hkt
      · -- the head index: the fold over `t` leaves slot `k` untouched
        have hfr := upFold_fst_other now t (upSeqBody now acc k) k hat
        simp only [List.foldl_cons]
        constructor
        · intro hff
          have hacc : upSeqBody now acc k = acc := hself.1 (hfeq.trans hff)
          rw [hacc] at hfr ⊢
          exact ⟨hfr.1.trans hagA.1, hfr.2.1.trans hagA.2.1,
            hfr.2.2.1.trans hagA.2.2.1,
            fun j => (hfr.2.2.2.1 j).trans (hagA.2.2.2.1 j),
            fun j => (hfr.2.2.2.2 j).trans (hagA.2.2.2.2 j)⟩
        · intro hft
          have heff := hself.2 (hfeq.trans hft)
          rw [hagA.2.1] at heff
          refine ⟨hfr.2.2.1.trans heff.1, hfr.2.1.trans heff.2.1,
            hfr.1.trans heff.2.2.1, fun j => ?_, fun j => ?_⟩
          · exact (hfr.2.2.2.1 j).trans ((heff.2.2.2.1 j).trans
              (by rw [hagA.2.2.2.1 j]))
          · exact (hfr.2.2.2.2 j).trans ((heff.2.2.2.2.1 j).trans
              (by rw [hagA.2.2.2.2 j]))
      · simp only [List.foldl_cons]
        exact IH.1 k hkt
    · simp only [List.foldl_cons, List.map_cons, List.flatten_cons]
      rw [IH.2]
      cases hfa : upFires s now a with
      | false =>
        have hacc : upSeqBody now acc a = acc := hself.1 (hfeq.trans hfa)
        rw [hacc]
        simp
      | true =>
        have heff := hself.2 (hfeq.trans hfa)
        rw [heff.2.2.2.2.2, hagA.2.1]
        simp [List.append_assoc]

theorem upSequence_spec (s : SysState) (now : Nat) :
    (∀ k, k < MAX_ACTIVE_SEQUENCES →
      (upFires s now k = false → upSlotAgrees (upSequence s now).1 s k) ∧
      (upFires s now k = true →
        (upSequence s now).1.stepUpdateMillis k = now ∧
        (upSequence s now).1.currentStep k =
          (if s.currentStep k + 1 = NUM_OF_STEPS then 0
           else s.currentStep k + 1) ∧
        (upSequence s now).1.sequence_active_up k =
          (if s.currentStep k + 1 = NUM_OF_STEPS then false else true) ∧
        (∀ j, (upSequence s now).1.stepClearUpdateMillisUp k j =
          (if j = s.currentStep k then now
           else s.stepClearUpdateMillisUp k j)) ∧
        (∀ j, (upSequence s now).1.upSeq_active k j =
          (if j = s.currentStep k then true else s.upSeq_active k j)))) ∧
    (upSequence s now).2 = ((List.range MAX_ACTIVE_SEQUENCES).map (fun k =>
      if upFires s now k then showStep (s.currentStep k + 1)
      else [])).flatten := by
  have h := upFold_run now s (List.range MAX_ACTIVE_SEQUENCES)
    (List.nodup_range _) (s, [])
    (fun k _ => ⟨rfl, rfl, rfl, fun j => rfl, fun j => rfl⟩)
  exact ⟨fun k hk => h.1 k (List.mem_range.mpr hk), by simpa using h.2⟩

theorem upSequence_misc (s : SysState) (now : Nat) :
    (upSequence s now).1.sequence_active_down = s.sequence_active_down ∧
    (upSequence s now).1.currentStepDown = s.currentStepDown ∧
    (upSequence s now).1.stepUpdateMillisDown = s.stepUpdateMillisDown ∧
    (upSequence s now).1.stepClearUpdateMillisDown =
      s.stepClearUpdateMillisDown ∧
    (upSequence s now).1.downSeq_active = s.downSeq_active ∧
    (upSequence s now).1.sensorUpdateMillis = s.sensorUpdateMillis ∧
    (upSequence s now).1.stripClearMillis = s.stripClearMillis :=
  upFold_misc now (List.range MAX_ACTIVE_SEQUENCES) (s, [])

/-! ### The `downSequence` loop -/

theorem downSeqBody_fst_other (now : Nat) (acc : SysState × List BusOp)
    (i k : Nat) (hk : k ≠ i) :
    downSlotAgrees (downSeqBody now acc i).1 acc.1 k := by
  simp only [downSeqBody]
  split
  · refine ⟨?_, ?_, ?_, fun j => ?_, fun j => ?_⟩ <;>
      split <;> simp [Function.update_apply, upd2, hk]
  · exact ⟨rfl, rfl, rfl, fun j => rfl, fun j => rfl⟩

theorem downSeqBody_misc (now : Nat) (acc : SysState × List BusOp) (i : Nat) :
    (downSeqBody now acc i).1.sequence_active_up = acc.1.sequence_active_up ∧
    (downSeqBody now acc i).1.currentStep = acc.1.currentStep ∧
    (downSeqBody now acc i).1.stepUpdateMillis = acc.1.stepUpdateMillis ∧
    (downSeqBody now acc i).1.stepClearUpdateMillisUp =
      acc.1.stepClearUpdateMillisUp ∧
    (downSeqBody now acc i).1.upSeq_active = acc.1.upSeq_active ∧
    (downSeqBody now acc i).1.sensorUpdateMillis = acc.1.sensorUpdateMillis ∧
    (downSeqBody now acc i).1.stripClearMillis = acc.1.stripClearMillis := by
  simp only [downSeqBody]
  split
  · refine ⟨?_, ?_, ?_, ?_, ?_, ?_, ?_⟩ <;> split <;> simp
  · exact ⟨rfl, rfl, rfl, rfl, rfl, rfl, rfl⟩

theorem downSeqBody_self (now : Nat) (acc : SysState × List BusOp) (i : Nat) :
    (downFires acc.1 now i = false → downSeqBody now acc i = acc) ∧
    (downFires acc.1 now i = true →
      (downSeqBody now acc i).1.stepUpdateMillisDown i = now ∧
      (downSeqBody now acc i).1.currentStepDown i =
        (if acc.1.currentStepDown i - 1 = 0 then NUM_OF_STEPS
         else acc.1.currentStepDown i - 1) ∧
      (downSeqBody now acc i).1.sequence_active_down i =
        (if acc.1.currentStepDown i - 1 = 0 then false else true) ∧
      (∀ j, (downSeqBody now acc i).1.stepClearUpdateMillisDown i j =
        (if j = acc.1.currentStepDown i - 1 then now
         else acc.1.stepClearUpdateMillisDown i j)) ∧
      (∀ j, (downSeqBody now acc i).1.downSeq_active i j =
        (if j = acc.1.currentStepDown i - 1 then true
         else acc.1.downSeq_active i j)) ∧
      (downSeqBody now acc i).2 = acc.2 ++ showStep (acc.1.currentStepDown i)) := by
  constructor
  · intro hf
    simp only [downSeqBody, hf, Bool.false_eq_true, if_false]
  · intro hf
    have hact : acc.1.sequence_active_down i = true := by
      have hf2 := hf
      simp only [downFires, Bool.and_eq_true] at hf2
      exact hf2.1.1
    simp only [downSeqBody, hf, if_true]
    refine ⟨?_, ?_, ?_, fun j => ?_, fun j => ?_, by simp⟩ <;>
      split <;> simp [Function.update_apply, upd2, hact]

theorem downFold_fst_other (now : Nat) (l : List Nat)
    (acc : SysState × List BusOp) (k : Nat) (hk : k ∉ l) :
    downSlotAgrees (l.foldl (downSeqBody now) acc).1 acc.1 k := by
  induction l generalizing acc with
  | nil => exact ⟨rfl, rfl, rfl, fun j => rfl, fun j => rfl⟩
  | cons a t ih =>
    have hka : k ≠ a := fun he => hk (he ▸ List.mem_cons_self a t)
    have hkt : k ∉ t := fun hm => hk (List.mem_cons_of_mem a hm)
    have hb := downSeqBody_fst_other now acc a k hka
    have hi := ih (downSeqBody now acc a) hkt
    simp only [List.foldl_cons]
    exact ⟨hi.1.trans hb.1, hi.2.1.trans hb.2.1, hi.2.2.1.trans hb.2.2.1,
      fun j => (hi.2.2.2.1 j).trans (hb.2.2.2.1 j),
      fun j => (hi.2.2.2.2 j).trans (hb.2.2.2.2 j)⟩

theorem downFold_misc (now : Nat) (l : List Nat)
    (acc : SysState × List BusOp) :
    (l.foldl (downSeqBody now) acc).1.sequence_active_up =
      acc.1.sequence_active_up ∧
    (l.foldl (downSeqBody now) acc).1.currentStep = acc.1.currentStep ∧
    (l.foldl (downSeqBody now) acc).1.stepUpdateMillis =
      acc.1.stepUpdateMillis ∧
    (l.foldl (downSeqBody now) acc).1.stepClearUpdateMillisUp =
      acc.1.stepClearUpdateMillisUp ∧
    (l.foldl (downSeqBody now) acc).1.upSeq_active = acc.1.upSeq_active ∧
    (l.foldl (downSeqBody now) acc).1.sensorUpdateMillis =
      acc.1.sensorUpdateMillis ∧
    (l.foldl (downSeqBody now) acc).1.stripClearMillis =
      acc.1.stripClearMillis := by
  induction l generalizing acc with
  | nil => exact ⟨rfl, rfl, rfl, rfl, rfl, rfl, rfl⟩
  | cons a t ih =>
    have hb := downSeqBody_misc now acc a
    have hi := ih (downSeqBody now acc a)
    simp only [List.foldl_cons]
    exact ⟨hi.1.trans hb.1, hi.2.1.trans hb.2.1, hi.2.2.1.trans hb.2.2.1,
      hi.2.2.2.1.trans hb.2.2.2.1, hi.2.2.2.2.1.trans hb.2.2.2.2.1,
      hi.2.2.2.2.2.1.trans hb.2.2.2.2.2.1,
      hi.2.2.2.2.2.2.trans hb.2.2.2.2.2.2⟩

theorem downFold_run (now : Nat) (s : SysState) :
    ∀ (l : List Nat), l.Nodup →
      ∀ (acc : SysState × List BusOp), (∀ k ∈ l, downSlotAgrees acc.1 s k) →
        (∀ k ∈ l,
          (downFires s now k = false →
            downSlotAgrees (l.foldl (downSeqBody now) acc).1 s k) ∧
          (downFires s now k = true →
            (l.foldl (downSeqBody now) acc).1.stepUpdateMillisDown k = now ∧
            (l.foldl (downSeqBody now) acc).1.currentStepDown k =
              (if s.currentStepDown k - 1 = 0 then NUM_OF_STEPS
               else s.currentStepDown k - 1) ∧
            (l.foldl (downSeqBody now) acc).1.sequence_active_down k =
              (if s.currentStepDown k - 1 = 0 then false else true) ∧
            (∀ j, (l.foldl
                (downSeqBody now) acc).1.stepClearUpdateMillisDown k j =
              (if j = s.currentStepDown k - 1 then now
               else s.stepClearUpdateMillisDown k j)) ∧
            (∀ j, (l.foldl (downSeqBody now) acc).1.downSeq_active k j =
              (if j = s.currentStepDown k - 1 then true
               else s.downSeq_active k j)))) ∧
        (l.foldl (downSeqBody now) acc).2 =
          acc.2 ++ (l.map (fun k =>
            if downFires s now k then showStep (s.currentStepDown k)
            else [])).flatten := by
  intro l
  induction l with
  | nil =>
    intro _ acc _
    exact ⟨fun k hk => absurd hk (List.not_mem_nil k), by simp⟩
  | cons a t ih =>
    intro hnd acc hag
    obtain ⟨hat, hndt⟩ := List.nodup_cons.mp hnd
    have hagA := hag a (List.mem_cons_self a t)
    have hfeq : downFires acc.1 now a = downFires s now a := by
      unfold downFires
      rw [hagA.1, hagA.2.1, hagA.2.2.1]
    have hag' : ∀ k ∈ t, downSlotAgrees (downSeqBody now acc a).1 s k := by
      intro k hkt
      have hka : k ≠ a := fun he => hat (he ▸ hkt)
      have hb := downSeqBody_fst_other now acc a k hka
      have h0 := hag k (List.mem_cons_of_mem a hkt)
      exact ⟨hb.1.trans h0.1, hb.2.1.trans h0.2.1, hb.2.2.1.trans h0.2.2.1,
        fun j => (hb.2.2.2.1 j).trans (h0.2.2.2.1 j),
        fun j => (hb.2.2.2.2 j).trans (h0.2.2.2.2 j)⟩
    have IH := ih hndt (downSeqBody now acc a) hag'
    have hself := downSeqBody_self now acc a
    constructor
    · intro k hk
      rcases List.mem_cons.mp hk with rfl | hkt
      · have hfr := downFold_fst_other now t (downSeqBody now acc k) k hat
        simp only [List.foldl_cons]
        constructor
        · intro hff
          have hacc : downSeqBody now acc k = acc := hself.1 (hfeq.trans hff)
          rw [hacc] at hfr ⊢
          exact ⟨hfr.1.trans hagA.1, hfr.2.1.trans hagA.2.1,
            hfr.2.2.1.trans hagA.2.2.1,
            fun j => (hfr.2.2.2.1 j).trans (hagA.2.2.2.1 j),
            fun j => (hfr.2.2.2.2 j).trans (hagA.2.2.2.2 j)⟩
        · intro hft
          have heff := hself.2 (hfeq.trans hft)
          rw [hagA.2.1] at heff
          refine ⟨hfr.2.2.1.trans heff.1, hfr.2.1.trans heff.2.1,
            hfr.1.trans heff.2.2.1, fun j => ?_, fun j => ?_⟩
          · exact (hfr.2.2.2.1 j).trans ((heff.2.2.2.1 j).trans
              (by rw [hagA.2.2.2.1 j]))
          · exact (hfr.2.2.2.2 j).trans ((heff.2.2.2.2.1 j).trans
              (by rw [hagA.2.2.2.2 j]))
      · simp only [List.foldl_cons]
        exact IH.1 k hkt
    · simp only [List.foldl_cons, List.map_cons, List.flatten_cons]
      rw [IH.2]
      cases hfa : downFires s now a with
      | false =>
        have hacc : downSeqBody now acc a = acc := hself.1 (hfeq.trans hfa)
        rw [hacc]
        simp
      | true =>
        have heff := hself.2 (hfeq.trans hfa)
        rw [heff.2.2.2.2.2, hagA.2.1]
        simp [List.append_assoc]

theorem downSequence_spec (s : SysState) (now : Nat) :
    (∀ k, k < MAX_ACTIVE_SEQUENCES →
      (downFires s now k = false →
        downSlotAgrees (downSequence s now).1 s k) ∧
      (downFires s now k = true →
        (downSequence s now).1.stepUpdateMillisDown k = now ∧
        (downSequence s now).1.currentStepDown k =
          (if s.currentStepDown k - 1 = 0 then NUM_OF_STEPS
           else s.currentStepDown k - 1) ∧
        (downSequence s now).1.sequence_active_down k =
          (if s.currentStepDown k - 1 = 0 then false else true) ∧
        (∀ j, (downSequence s now).1.stepClearUpdateMillisDown k j =
          (if j = s.currentStepDown k - 1 then now
           else s.stepClearUpdateMillisDown k j)) ∧
        (∀ j, (downSequence s now).1.downSeq_active k j =
          (if j = s.currentStepDown k - 1 then true
           else s.downSeq_active k j)))) ∧
    (downSequence s now).2 = ((List.range MAX_ACTIVE_SEQUENCES).map (fun k =>
      if downFires s now k then showStep (s.currentStepDown k)
      else [])).flatten := by
  have h := downFold_run now s (List.range MAX_ACTIVE_SEQUENCES)
    (List.nodup_range _) (s, [])
    (fun k _ => ⟨rfl, rfl, rfl, fun j => rfl, fun j => rfl⟩)
  exact ⟨fun k hk => h.1 k (List.mem_range.mpr hk), by simpa using h.2⟩

theorem downSequence_misc (s : SysState) (now : Nat) :
    (downSequence s now).1.sequence_active_up = s.sequence_active_up ∧
    (downSequence s now).1.currentStep = s.currentStep ∧
    (downSequence s now).1.stepUpdateMillis = s.stepUpdateMillis ∧
    (downSequence s now).1.stepClearUpdateMillisUp =
      s.stepClearUpdateMillisUp ∧
    (downSequence s now).1.upSeq_active = s.upSeq_active ∧
    (downSequence s now).1.sensorUpdateMillis = s.sensorUpdateMillis ∧
    (downSequence s now).1.stripClearMillis = s.stripClearMillis :=
  downFold_misc now (List.range MAX_ACTIVE_SEQUENCES) (s, [])

/-! ### The `clearSequence` sweep -/

theorem clearSeqBody_other (now : Nat) (acc : SysState × List BusOp)
    (i j qi qj : Nat) (hq : ¬(qi = i ∧ qj = j)) :
    (clearSeqBody now acc (i, j)).1.stepClearUpdateMillisUp qi qj =
      acc.1.stepClearUpdateMillisUp qi qj ∧
    (clearSeqBody now acc (i, j)).1.upSeq_active qi qj =
      acc.1.upSeq_active qi qj ∧
    (clearSeqBody now acc (i, j)).1.stepClearUpdateMillisDown qi qj =
      acc.1.stepClearUpdateMillisDown qi qj ∧
    (clearSeqBody now acc (i, j)).1.downSeq_active qi qj =
      acc.1.downSeq_active qi qj := by
  simp only [clearSeqBody]
  split <;> split <;>
    exact ⟨by simp [upd2, hq], by simp [upd2, hq], by simp [upd2, hq],
      by simp [upd2, hq]⟩

theorem clearSeqBody_misc (now : Nat) (acc : SysState × List BusOp)
    (p : Nat × Nat) :
    (clearSeqBody now acc p).1.sequence_active_up = acc.1.sequence_active_up ∧
    (clearSeqBody now acc p).1.currentStep = acc.1.currentStep ∧
    (clearSeqBody now acc p).1.stepUpdateMillis = acc.1.stepUpdateMillis ∧
    (clearSeqBody now acc p).1.stepClearUpdateMillisUp =
      acc.1.stepClearUpdateMillisUp ∧
    (clearSeqBody now acc p).1.sequence_active_down =
      acc.1.sequence_active_down ∧
    (clearSeqBody now acc p).1.currentStepDown = acc.1.currentStepDown ∧
    (clearSeqBody now acc p).1.stepUpdateMillisDown =
      acc.1.stepUpdateMillisDown ∧
    (clearSeqBody now acc p).1.stepClearUpdateMillisDown =
      acc.1.stepClearUpdateMillisDown ∧
    (clearSeqBody now acc p).1.sensorUpdateMillis = acc.1.sensorUpdateMillis ∧
    (clearSeqBody now acc p).1.stripClearMillis = acc.1.stripClearMillis := by
  simp only [clearSeqBody]
  split <;> split <;>
    exact ⟨rfl, rfl, rfl, rfl, rfl, rfl, rfl, rfl, rfl, rfl⟩

theorem clearSeqBody_self (now : Nat) (acc : SysState × List BusOp)
    (i j : Nat) :
    (clearSeqBody now acc (i, j)).1.upSeq_active i j =
      (if clearUpFires acc.1 now i j then false
       else acc.1.upSeq_active i j) ∧
    (clearSeqBody now acc (i, j)).1.downSeq_active i j =
      (if clearDownFires acc.1 now i j then false
       else acc.1.downSeq_active i j) ∧
    (clearSeqBody now acc (i, j)).2 = acc.2 ++
      ((if clearUpFires acc.1 now i j then clearStep (j + 1) else []) ++
       (if clearDownFires acc.1 now i j then clearStep (j + 1) else [])) := by
  cases hu : clearUpFires acc.1 now i j <;>
    cases hd : clearDownFires acc.1 now i j <;>
    · simp only [clearUpFires] at hu
      simp only [clearDownFires] at hd
      simp [clearSeqBody, clearUpFires, clearDownFires, hu, hd, upd2,
        List.append_assoc]

theorem clearFold_other (now : Nat) (l : List (Nat × Nat))
    (acc : SysState × List BusOp) (qi qj : Nat) (hq : (qi, qj) ∉ l) :
    (l.foldl (clearSeqBody now) acc).1.stepClearUpdateMillisUp qi qj =
      acc.1.stepClearUpdateMillisUp qi qj ∧
    (l.foldl (clearSeqBody now) acc).1.upSeq_active qi qj =
      acc.1.upSeq_active qi qj ∧
    (l.foldl (clearSeqBody now) acc).1.stepClearUpdateMillisDown qi qj =
      acc.1.stepClearUpdateMillisDown qi qj ∧
    (l.foldl (clearSeqBody now) acc).1.downSeq_active qi qj =
      acc.1.downSeq_active qi qj := by
  induction l generalizing acc with
  | nil => exact ⟨rfl, rfl, rfl, rfl⟩
  | cons a t ih =>
    obtain ⟨ai, aj⟩ := a
    have hqa : ¬(qi = ai ∧ qj = aj) := by
      intro hh
      exact hq (by rw [hh.1, hh.2]; exact List.mem_cons_self _ t)
    have hqt : (qi, qj) ∉ t := fun hm => hq (List.mem_cons_of_mem _ hm)
    have hb := clearSeqBody_other now acc ai aj qi qj hqa
    have hi := ih (clearSeqBody now acc (ai, aj)) hqt
    simp only [List.foldl_cons]
    exact ⟨hi.1.trans hb.1, hi.2.1.trans hb.2.1, hi.2.2.1.trans hb.2.2.1,
      hi.2.2.2.trans hb.2.2.2⟩

theorem clearFold_misc (now : Nat) (l : List (Nat × Nat))
    (acc : SysState × List BusOp) :
    (l.foldl (clearSeqBody now) acc).1.sequence_active_up =
      acc.1.sequence_active_up ∧
    (l.foldl (clearSeqBody now) acc).1.currentStep = acc.1.currentStep ∧
    (l.foldl (clearSeqBody now) acc).1.stepUpdateMillis =
      acc.1.stepUpdateMillis ∧
    (l.foldl (clearSeqBody now) acc).1.stepClearUpdateMillisUp =
      acc.1.stepClearUpdateMillisUp ∧
    (l.foldl (clearSeqBody now) acc).1.sequence_active_down =
      acc.1.sequence_active_down ∧
    (l.foldl (clearSeqBody now) acc).1.currentStepDown =
      acc.1.currentStepDown ∧
    (l.foldl (clearSeqBody now) acc).1.stepUpdateMillisDown =
      acc.1.stepUpdateMillisDown ∧
    (l.foldl (clearSeqBody now) acc).1.stepClearUpdateMillisDown =
      acc.1.stepClearUpdateMillisDown ∧
    (l.foldl (clearSeqBody now) acc).1.sensorUpdateMillis =
      acc.1.sensorUpdateMillis ∧
    (l.foldl (clearSeqBody now) acc).1.stripClearMillis =
      acc.1.stripClearMillis := by
  induction l generalizing acc with
  | nil => exact ⟨rfl, rfl, rfl, rfl, rfl, rfl, rfl, rfl, rfl, rfl⟩
  | cons a t ih =>
    have hb := clearSeqBody_misc now acc a
    have hi := ih (clearSeqBody now acc a)
    simp only [List.foldl_cons]
    exact ⟨hi.1.trans hb.1, hi.2.1.trans hb.2.1, hi.2.2.1.trans hb.2.2.1,
      hi.2.2.2.1.trans hb.2.2.2.1, hi.2.2.2.2.1.trans hb.2.2.2.2.1,
      hi.2.2.2.2.2.1.trans hb.2.2.2.2.2.1,
      hi.2.2.2.2.2.2.1.trans hb.2.2.2.2.2.2.1,
      hi.2.2.2.2.2.2.2.1.trans hb.2.2.2.2.2.2.2.1,
      hi.2.2.2.2.2.2.2.2.1.trans hb.2.2.2.2.2.2.2.2.1,
      hi.2.2.2.2.2.2.2.2.2.trans hb.2.2.2.2.2.2.2.2.2⟩

theorem clearFold_run (now : Nat) (s : SysState) :
    ∀ (l : List (Nat × Nat)), l.Nodup →
      ∀ (acc : SysState × List BusOp),
        (∀ i j, (i, j) ∈ l →
          acc.1.stepClearUpdateMillisUp i j = s.stepClearUpdateMillisUp i j ∧
          acc.1.upSeq_active i j = s.upSeq_active i j ∧
          acc.1.stepClearUpdateMillisDown i j =
            s.stepClearUpdateMillisDown i j ∧
          acc.1.downSeq_active i j = s.downSeq_active i j) →
        (∀ i j, (i, j) ∈ l →
          (l.foldl (clearSeqBody now) acc).1.upSeq_active i j =
            (if clearUpFires s now i j then false
             else s.upSeq_active i j) ∧
          (l.foldl (clearSeqBody now) acc).1.downSeq_active i j =
            (if clearDownFires s now i j then false
             else s.downSeq_active i j)) ∧
        (l.foldl (clearSeqBody now) acc).2 =
          acc.2 ++ (l.map (fun p =>
            (if clearUpFires s now p.1 p.2 then clearStep (p.2 + 1)
             else []) ++
            (if clearDownFires s now p.1 p.2 then clearStep (p.2 + 1)
             else []))).flatten := by
  intro l
  induction l with
  | nil =>
    intro _ acc _
    exact ⟨fun i j hm => absurd hm (List.not_mem_nil (i, j)), by simp⟩
  | cons a t ih =>
    intro hnd acc hag
    obtain ⟨ai, aj⟩ := a
    obtain ⟨hat, hndt⟩ := List.nodup_cons.mp hnd
    have hagA := hag ai aj (List.mem_cons_self _ t)
    have hfequ : clearUpFires acc.1 now ai aj = clearUpFires s now ai aj := by
      unfold clearUpFires
      rw [hagA.1, hagA.2.1]
    have hfeqd : clearDownFires acc.1 now ai aj =
        clearDownFires s now ai aj := by
      unfold clearDownFires
      rw [hagA.2.2.1, hagA.2.2.2]
    have hself := clearSeqBody_self now acc ai aj
    have hag' : ∀ i j, (i, j) ∈ t →
        (clearSeqBody now acc (ai, aj)).1.stepClearUpdateMillisUp i j =
          s.stepClearUpdateMillisUp i j ∧
        (clearSeqBody now acc (ai, aj)).1.upSeq_active i j =
          s.upSeq_active i j ∧
        (clearSeqBody now acc (ai, aj)).1.stepClearUpdateMillisDown i j =
          s.stepClearUpdateMillisDown i j ∧
        (clearSeqBody now acc (ai, aj)).1.downSeq_active i j =
          s.downSeq_active i j := by
      intro i j hpt
      have hpa : ¬(i = ai ∧ j = aj) := by
        intro hh
        exact hat (by rw [← hh.1, ← hh.2]; exact hpt)
      have hb := clearSeqBody_other now acc ai aj i j hpa
      have h0 := hag i j (List.mem_cons_of_mem _ hpt)
      exact ⟨hb.1.trans h0.1, hb.2.1.trans h0.2.1, hb.2.2.1.trans h0.2.2.1,
        hb.2.2.2.trans h0.2.2.2⟩
    have IH := ih hndt (clearSeqBody now acc (ai, aj)) hag'
    constructor
    · intro i j hp
      rcases List.mem_cons.mp hp with heq | hpt
      · obtain ⟨rfl, rfl⟩ := Prod.mk.injEq .. ▸ heq
        have hfr := clearFold_other now t (clearSeqBody now acc (i, j)) i j hat
        simp only [List.foldl_cons]
        constructor
        · refine hfr.2.1.trans (hself.1.trans ?_)
          rw [hfequ, hagA.2.1]
        · refine hfr.2.2.2.trans (hself.2.1.trans ?_)
          rw [hfeqd, hagA.2.2.2]
      · simp only [List.foldl_cons]
        exact IH.1 i j hpt
    · simp only [List.foldl_cons, List.map_cons, List.flatten_cons]
      rw [IH.2, hself.2.2, hfequ, hfeqd]
      simp [List.append_assoc]

theorem mem_stepPairs (i j : Nat) :
    (i, j) ∈ stepPairs ↔ i < MAX_ACTIVE_SEQUENCES ∧ j < NUM_OF_STEPS := by
  simp only [stepPairs, List.mem_flatMap, List.mem_map, List.mem_range]
  constructor
  · rintro ⟨a, ha, b, hb, hab⟩
    obtain ⟨rfl, rfl⟩ := Prod.mk.injEq .. ▸ hab
    exact ⟨ha, hb⟩
  · rintro ⟨hi, hj⟩
    exact ⟨i, hi, j, hj, rfl⟩

theorem stepPairs_nodup : stepPairs.Nodup := by decide

theorem clearSequence_spec (s : SysState) (now : Nat) :
    (∀ i j, i < MAX_ACTIVE_SEQUENCES → j < NUM_OF_STEPS →
      (clearSequence s now).1.upSeq_active i j =
        (if clearUpFires s now i j then false else s.upSeq_active i j) ∧
      (clearSequence s now).1.downSeq_active i j =
        (if clearDownFires s now i j then false
         else s.downSeq_active i j)) ∧
    (clearSequence s now).2 = (stepPairs.map (fun p =>
      (if clearUpFires s now p.1 p.2 then clearStep (p.2 + 1) else []) ++
      (if clearDownFires s now p.1 p.2 then clearStep (p.2 + 1)
       else []))).flatten := by
  unfold clearSequence
  have h := clearFold_run now s stepPairs stepPairs_nodup (s, [])
    (fun i j _ => ⟨rfl, rfl, rfl, rfl⟩)
  refine ⟨fun i j hi hj => h.1 i j ((mem_stepPairs i j).mpr ⟨hi, hj⟩), ?_⟩
  rw [h.2]
  rfl

theorem clearSequence_misc (s : SysState) (now : Nat) :
    (clearSequence s now).1.sequence_active_up = s.sequence_active_up ∧
    (clearSequence s now).1.currentStep = s.currentStep ∧
    (clearSequence s now).1.stepUpdateMillis = s.stepUpdateMillis ∧
    (clearSequence s now).1.stepClearUpdateMillisUp =
      s.stepClearUpdateMillisUp ∧
    (clearSequence s now).1.sequence_active_down = s.sequence_active_down ∧
    (clearSequence s now).1.currentStepDown = s.currentStepDown ∧
    (clearSequence s now).1.stepUpdateMillisDown = s.stepUpdateMillisDown ∧
    (clearSequence s now).1.stepClearUpdateMillisDown =
      s.stepClearUpdateMillisDown ∧
    (clearSequence s now).1.sensorUpdateMillis = s.sensorUpdateMillis ∧
    (clearSequence s now).1.stripClearMillis = s.stripClearMillis := by
  unfold clearSequence
  exact clearFold_misc now stepPairs (s, [])

theorem clearSequence_outside (s : SysState) (now i j : Nat)
    (h : ¬(i < MAX_ACTIVE_SEQUENCES ∧ j < NUM_OF_STEPS)) :
    (clearSequence s now).1.upSeq_active i j = s.upSeq_active i j ∧
    (clearSequence s now).1.downSeq_active i j = s.downSeq_active i j := by
  have hq : (i, j) ∉ stepPairs := fun hm => h ((mem_stepPairs i j).mp hm)
  unfold clearSequence
  have hh := clearFold_other now stepPairs (s, []) i j hq
  exact ⟨hh.2.1, hh.2.2.2⟩

/-! ### Composition lemmas: `readSensors`, `sequenceHandler`, `tick` -/

theorem anyActiveUp_of (s : SysState) (i : Nat) (hi : i < MAX_ACTIVE_SEQUENCES)
    (h : s.sequence_active_up i = true) : anySequenceActiveUp s = true :=
  (anyActiveUp_true_iff s).mpr ⟨i, hi, h⟩

theorem anyActiveDown_of (s : SysState) (i : Nat)
    (hi : i < MAX_ACTIVE_SEQUENCES) (h : s.sequence_active_down i = true) :
    anySequenceActiveDown s = true :=
  (anyActiveDown_true_iff s).mpr ⟨i, hi, h⟩

theorem anyActiveUp_congr (t s : SysState)
    (h : t.sequence_active_up = s.sequence_active_up) :
    anySequenceActiveUp t = anySequenceActiveUp s := by
  unfold anySequenceActiveUp
  rw [h]

theorem anyActiveDown_congr (t s : SysState)
    (h : t.sequence_active_down = s.sequence_active_down) :
    anySequenceActiveDown t = anySequenceActiveDown s := by
  unfold anySequenceActiveDown
  rw [h]

theorem allClearedUp_congr (t s : SysState)
    (h : t.upSeq_active = s.upSeq_active) :
    allStepsClearedUp t = allStepsClearedUp s := by
  unfold allStepsClearedUp
  rw [h]

theorem allClearedDown_congr (t s : SysState)
    (h : t.downSeq_active = s.downSeq_active) :
    allStepsClearedDown t = allStepsClearedDown s := by
  unfold allStepsClearedDown
  rw [h]

theorem readSensors_upSlot_frame (s : SysState) (now : Nat) (b1 b2 : Bool)
    (i : Nat) (h : s.sequence_active_up i = true) :
    (readSensors s now b1 b2).sequence_active_up i =
      s.sequence_active_up i ∧
    (readSensors s now b1 b2).currentStep i = s.currentStep i ∧
    (readSensors s now b1 b2).stepUpdateMillis i = s.stepUpdateMillis i := by
  rw [readSensors_eq]
  split
  · exact triggerUpSequence_active_frame _ now i h
  · split
    · have hm := triggerDownSequence_misc
        { s with sensorUpdateMillis := now, stripClearMillis := now } now
      exact ⟨congrFun hm.1 i, congrFun hm.2.1 i, congrFun hm.2.2.1 i⟩
    · exact ⟨rfl, rfl, rfl⟩

theorem readSensors_downSlot_frame (s : SysState) (now : Nat) (b1 b2 : Bool)
    (i : Nat) (h : s.sequence_active_down i = true) :
    (readSensors s now b1 b2).sequence_active_down i =
      s.sequence_active_down i ∧
    (readSensors s now b1 b2).currentStepDown i = s.currentStepDown i ∧
    (readSensors s now b1 b2).stepUpdateMillisDown i =
      s.stepUpdateMillisDown i := by
  rw [readSensors_eq]
  split
  · have hm := triggerUpSequence_misc
      { s with sensorUpdateMillis := now, stripClearMillis := now } now
    exact ⟨congrFun hm.1 i, congrFun hm.2.1 i, congrFun hm.2.2.1 i⟩
  · split
    · exact triggerDownSequence_active_frame _ now i h
    · exact ⟨rfl, rfl, rfl⟩

theorem readSensors_records (s : SysState) (now : Nat) (b1 b2 : Bool) :
    (readSensors s now b1 b2).upSeq_active = s.upSeq_active ∧
    (readSensors s now b1 b2).stepClearUpdateMillisUp =
      s.stepClearUpdateMillisUp ∧
    (readSensors s now b1 b2).downSeq_active = s.downSeq_active ∧
    (readSensors s now b1 b2).stepClearUpdateMillisDown =
      s.stepClearUpdateMillisDown := by
  rw [readSensors_eq]
  split
  · have hm := triggerUpSequence_misc
      { s with sensorUpdateMillis := now, stripClearMillis := now } now
    exact ⟨hm.2.2.2.2.2.1, hm.2.2.2.2.2.2.1, hm.2.2.2.2.1, hm.2.2.2.1⟩
  · split
    · have hm := triggerDownSequence_misc
        { s with sensorUpdateMillis := now, stripClearMillis := now } now
      exact ⟨hm.2.2.2.2.1, hm.2.2.2.1, hm.2.2.2.2.2.1, hm.2.2.2.2.2.2.1⟩
    · exact ⟨rfl, rfl, rfl, rfl⟩

theorem readSensors_inactive_upSlot (s : SysState) (now : Nat) (b1 b2 : Bool)
    (i : Nat) (h : s.sequence_active_up i = false) :
    (readSensors s now b1 b2).sequence_active_up i = false ∨
    ((readSensors s now b1 b2).sequence_active_up i = true ∧
      (readSensors s now b1 b2).currentStep i = 0 ∧
      (readSensors s now b1 b2).stepUpdateMillis i = now) := by
  rw [readSensors_eq]
  split
  · cases hf : firstFreeUp
        { s with sensorUpdateMillis := now, stripClearMillis := now } with
    | none => exact Or.inl (by simp [triggerUpSequence, hf, h])
    | some k =>
      by_cases hik : i = k
      · subst hik
        exact Or.inr (by simp [triggerUpSequence, hf, Function.update_apply])
      · exact Or.inl (by
          simp [triggerUpSequence, hf, Function.update_apply, hik, h])
  · split
    · have hm := triggerDownSequence_misc
        { s with sensorUpdateMillis := now, stripClearMillis := now } now
      exact Or.inl ((congrFun hm.1 i).trans h)
    · exact Or.inl h

theorem readSensors_inactive_downSlot (s : SysState) (now : Nat)
    (b1 b2 : Bool) (i : Nat) (h : s.sequence_active_down i = false) :
    (readSensors s now b1 b2).sequence_active_down i = false ∨
    ((readSensors s now b1 b2).sequence_active_down i = true ∧
      (readSensors s now b1 b2).currentStepDown i = NUM_OF_STEPS ∧
      (readSensors s now b1 b2).stepUpdateMillisDown i = now) := by
  rw [readSensors_eq]
  split
  · have hm := triggerUpSequence_misc
      { s with sensorUpdateMillis := now, stripClearMillis := now } now
    exact Or.inl ((congrFun hm.1 i).trans h)
  · split
    · cases hf : firstFreeDown
          { s with sensorUpdateMillis := now, stripClearMillis := now } with
      | none => exact Or.inl (by simp [triggerDownSequence, hf, h])
      | some k =>
        by_cases hik : i = k
        · subst hik
          exact Or.inr (by
            simp [triggerDownSequence, hf, Function.update_apply])
        · exact Or.inl (by
            simp [triggerDownSequence, hf, Function.update_apply, hik, h])
    · exact Or.inl h

theorem sequenceHandler_eq (s : SysState) (now : Nat) :
    sequenceHandler s now =
      ((clearSequence (advancerPart s now).1 now).1,
        (advancerPart s now).2 ++
          (clearSequence (advancerPart s now).1 now).2) := rfl

theorem upFires_false_cases (s : SysState) (now i : Nat)
    (h : s.sequence_active_up i = false ∨ s.stepUpdateMillis i = now) :
    upFires s now i = false := by
  rcases h with h | h
  · simp [upFires, h]
  · simp [upFires, h, Nat.sub_self, STEP_UPDATE_DELAY]

theorem downFires_false_cases (s : SysState) (now i : Nat)
    (h : s.sequence_active_down i = false ∨ s.stepUpdateMillisDown i = now) :
    downFires s now i = false := by
  rcases h with h | h
  · simp [downFires, h]
  · simp [downFires, h, Nat.sub_self, STEP_UPDATE_DELAY]

theorem advancerPart_upSlot_of_active (s : SysState) (now : Nat) (i : Nat)
    (hi : i < MAX_ACTIVE_SEQUENCES) (ha : s.sequence_active_up i = true) :
    (upFires s now i = false → upSlotAgrees (advancerPart s now).1 s i) ∧
    (upFires s now i = true →
      (advancerPart s now).1.stepUpdateMillis i = now ∧
      (advancerPart s now).1.currentStep i =
        (if s.currentStep i + 1 = NUM_OF_STEPS then 0
         else s.currentStep i + 1) ∧
      (advancerPart s now).1.sequence_active_up i =
        (if s.currentStep i + 1 = NUM_OF_STEPS then false else true) ∧
      (∀ j, (advancerPart s now).1.stepClearUpdateMillisUp i j =
        (if j = s.currentStep i then now
         else s.stepClearUpdateMillisUp i j)) ∧
      (∀ j, (advancerPart s now).1.upSeq_active i j =
        (if j = s.currentStep i then true else s.upSeq_active i j))) := by
  have hAny : anySequenceActiveUp s = true := anyActiveUp_of s i hi ha
  have hspec := (upSequence_spec s now).1 i hi
  unfold advancerPart
  simp only [hAny, if_true]
  split
  · have hdm := downSequence_misc (upSequence s now).1 now
    simp only [upSlotAgrees]
    rw [hdm.1, hdm.2.1, hdm.2.2.1, hdm.2.2.2.1, hdm.2.2.2.2.1]
    exact hspec
  · exact hspec

theorem advancerPart_upRow_of_notfire (s : SysState) (now : Nat) (i : Nat)
    (hf : upFires s now i = false) :
    (∀ j, (advancerPart s now).1.upSeq_active i j = s.upSeq_active i j) ∧
    (∀ j, (advancerPart s now).1.stepClearUpdateMillisUp i j =
      s.stepClearUpdateMillisUp i j) := by
  simp only [advancerPart]
  split
  · -- upSequence ran
    rename_i hAny
    have hspec := (upSequence_spec s now).1
    split
    · have hdm := downSequence_misc (upSequence s now).1 now
      rw [hdm.2.2.2.1, hdm.2.2.2.2.1]
      by_cases hi : i < MAX_ACTIVE_SEQUENCES
      · have hag := (hspec i hi).1 hf
        exact ⟨hag.2.2.2.2, hag.2.2.2.1⟩
      · have hfr := upFold_fst_other now (List.range MAX_ACTIVE_SEQUENCES)
          (s, []) i (by simpa using hi)
        exact ⟨hfr.2.2.2.2, hfr.2.2.2.1⟩
    · by_cases hi : i < MAX_ACTIVE_SEQUENCES
      · have hag := (hspec i hi).1 hf
        exact ⟨hag.2.2.2.2, hag.2.2.2.1⟩
      · have hfr := upFold_fst_other now (List.range MAX_ACTIVE_SEQUENCES)
          (s, []) i (by simpa using hi)
        exact ⟨hfr.2.2.2.2, hfr.2.2.2.1⟩
  · split
    · have hdm := downSequence_misc s now
      rw [hdm.2.2.2.1, hdm.2.2.2.2.1]
      exact ⟨fun j => rfl, fun j => rfl⟩
    · exact ⟨fun j => rfl, fun j => rfl⟩

theorem advancerPart_downRow_of_notfire (s : SysState) (now : Nat) (i : Nat)
    (hf : downFires s now i = false) :
    (∀ j, (advancerPart s now).1.downSeq_active i j = s.downSeq_active i j) ∧
    (∀ j, (advancerPart s now).1.stepClearUpdateMillisDown i j =
      s.stepClearUpdateMillisDown i j) := by
  simp only [advancerPart]
  split
  · rename_i hAny
    have hum := upSequence_misc s now
    have hfq : downFires (upSequence s now).1 now i = downFires s now i := by
      unfold downFires
      rw [hum.1, hum.2.1, hum.2.2.1]
    split
    · have hspec := (downSequence_spec (upSequence s now).1 now).1
      by_cases hi : i < MAX_ACTIVE_SEQUENCES
      · have hag := (hspec i hi).1 (hfq.trans hf)
        refine ⟨fun j => (hag.2.2.2.2 j).trans ?_,
          fun j => (hag.2.2.2.1 j).trans ?_⟩
        · exact congrFun (congrFun hum.2.2.2.2.1 i) j
        · exact congrFun (congrFun hum.2.2.2.1 i) j
      · have hfr := downFold_fst_other now (List.range MAX_ACTIVE_SEQUENCES)
          ((upSequence s now).1, []) i (by simpa using hi)
        refine ⟨fun j => (hfr.2.2.2.2 j).trans ?_,
          fun j => (hfr.2.2.2.1 j).trans ?_⟩
        · exact congrFun (congrFun hum.2.2.2.2.1 i) j
        · exact congrFun (congrFun hum.2.2.2.1 i) j
    · exact ⟨fun j => congrFun (congrFun hum.2.2.2.2.1 i) j,
        fun j => congrFun (congrFun hum.2.2.2.1 i) j⟩
  · split
    · have hspec := (downSequence_spec s now).1
      by_cases hi : i < MAX_ACTIVE_SEQUENCES
      · have hag := (hspec i hi).1 hf
        exact ⟨hag.2.2.2.2, hag.2.2.2.1⟩
      · have hfr := downFold_fst_other now (List.range MAX_ACTIVE_SEQUENCES)
          (s, []) i (by simpa using hi)
        exact ⟨hfr.2.2.2.2, hfr.2.2.2.1⟩
    · exact ⟨fun j => rfl, fun j => rfl⟩

theorem tick_upSlot (s : SysState) (now : Nat) (b1 b2 : Bool) (i : Nat)
    (hi : i < MAX_ACTIVE_SEQUENCES) (ha : s.sequence_active_up i = true) :
    upFires (readSensors s now b1 b2) now i = upFires s now i ∧
    (upFires s now i = false →
      (tick s now b1 b2).1.sequence_active_up i = true ∧
      (tick s now b1 b2).1.currentStep i = s.currentStep i ∧
      (tick s now b1 b2).1.stepUpdateMillis i = s.stepUpdateMillis i) ∧
    (upFires s now i = true →
      (tick s now b1 b2).1.stepUpdateMillis i = now ∧
      (tick s now b1 b2).1.currentStep i =
        (if s.currentStep i + 1 = NUM_OF_STEPS then 0
         else s.currentStep i + 1) ∧
      (tick s now b1 b2).1.sequence_active_up i =
        (if s.currentStep i + 1 = NUM_OF_STEPS then false else true)) := by
  have hfr := readSensors_upSlot_frame s now b1 b2 i ha
  have haMid : (readSensors s now b1 b2).sequence_active_up i = true :=
    hfr.1.trans ha
  have hfeq : upFires (readSensors s now b1 b2) now i = upFires s now i := by
    unfold upFires
    rw [hfr.1, hfr.2.1, hfr.2.2]
  have hadv :=
    advancerPart_upSlot_of_active (readSensors s now b1 b2) now i hi haMid
  have hcm :=
    clearSequence_misc (advancerPart (readSensors s now b1 b2) now).1 now
  have htick : (tick s now b1 b2).1 =
      (clearSequence (advancerPart (readSensors s now b1 b2) now).1 now).1 := by
    simp only [tick, sequenceHandler]
  refine ⟨hfeq, fun hf => ?_, fun hf => ?_⟩
  · have h2 := hadv.1 (hfeq.trans hf)
    rw [htick]
    exact ⟨(congrFun hcm.1 i).trans (h2.1.trans haMid),
      (congrFun hcm.2.1 i).trans (h2.2.1.trans hfr.2.1),
      (congrFun hcm.2.2.1 i).trans (h2.2.2.1.trans hfr.2.2)⟩
  · have h2 := hadv.2 (hfeq.trans hf)
    rw [hfr.2.1] at h2
    rw [htick]
    exact ⟨(congrFun hcm.2.2.1 i).trans h2.1,
      (congrFun hcm.2.1 i).trans h2.2.1,
      (congrFun hcm.1 i).trans h2.2.2.1⟩

theorem tick_deadUpRecord (s : SysState) (now : Nat) (b1 b2 : Bool)
    (i j : Nat) (hi : i < MAX_ACTIVE_SEQUENCES) (hj : j < NUM_OF_STEPS)
    (hact : s.sequence_active_up i = false) (hlit : s.upSeq_active i j = true)
    (hdl : STEP_CLEAR_DELAY < now - s.stepClearUpdateMillisUp i j) :
    (tick s now b1 b2).1.upSeq_active i j = false ∧
    BusOp.write (j + 1) 0 ∈ (tick s now b1 b2).2 := by
  have hrec := readSensors_records s now b1 b2
  have hdisj := readSensors_inactive_upSlot s now b1 b2 i hact
  have hf : upFires (readSensors s now b1 b2) now i = false := by
    refine upFires_false_cases _ now i ?_
    rcases hdisj with h | h
    · exact Or.inl h
    · exact Or.inr h.2.2
  have hrow := advancerPart_upRow_of_notfire (readSensors s now b1 b2) now i hf
  have hflag : (advancerPart
      (readSensors s now b1 b2) now).1.upSeq_active i j = true :=
    (hrow.1 j).trans ((congrFun (congrFun hrec.1 i) j).trans hlit)
  have hstamp : (advancerPart
      (readSensors s now b1 b2) now).1.stepClearUpdateMillisUp i j =
      s.stepClearUpdateMillisUp i j :=
    (hrow.2 j).trans (congrFun (congrFun hrec.2.1 i) j)
  have hfire : clearUpFires
      (advancerPart (readSensors s now b1 b2) now).1 now i j = true := by
    unfold clearUpFires
    rw [hstamp, hflag]
    simp [hdl]
  have hcs :=
    clearSequence_spec (advancerPart (readSensors s now b1 b2) now).1 now
  have htick1 : (tick s now b1 b2).1 =
      (clearSequence (advancerPart (readSensors s now b1 b2) now).1 now).1 := by
    simp only [tick, sequenceHandler]
  have htick2 : (tick s now b1 b2).2 =
      (advancerPart (readSensors s now b1 b2) now).2 ++
        (clearSequence (advancerPart (readSensors s now b1 b2) now).1
          now).2 := by
    simp only [tick, sequenceHandler]
  constructor
  · rw [htick1]
    have h3 := (hcs.1 i j hi hj).1
    rw [hfire] at h3
    simpa using h3
  · rw [htick2]
    refine List.mem_append_right _ ?_
    rw [hcs.2]
    refine List.mem_flatten.mpr
      ⟨_, List.mem_map.mpr ⟨(i, j), (mem_stepPairs i j).mpr ⟨hi, hj⟩, rfl⟩, ?_⟩
    simp [hfire, clearStep]

theorem tick_deadDownRecord (s : SysState) (now : Nat) (b1 b2 : Bool)
    (i j : Nat) (hi : i < MAX_ACTIVE_SEQUENCES) (hj : j < NUM_OF_STEPS)
    (hact : s.sequence_active_down i = false)
    (hlit : s.downSeq_active i j = true)
    (hdl : STEP_CLEAR_DELAY < now - s.stepClearUpdateMillisDown i j) :
    (tick s now b1 b2).1.downSeq_active i j = false ∧
    BusOp.write (j + 1) 0 ∈ (tick s now b1 b2).2 := by
  have hrec := readSensors_records s now b1 b2
  have hdisj := readSensors_inactive_downSlot s now b1 b2 i hact
  have hf : downFires (readSensors s now b1 b2) now i = false := by
    refine downFires_false_cases _ now i ?_
    rcases hdisj with h | h
    · exact Or.inl h
    · exact Or.inr h.2.2
  have hrow :=
    advancerPart_downRow_of_notfire (readSensors s now b1 b2) now i hf
  have hflag : (advancerPart
      (readSensors s now b1 b2) now).1.downSeq_active i j = true :=
    (hrow.1 j).trans ((congrFun (congrFun hrec.2.2.1 i) j).trans hlit)
  have hstamp : (advancerPart
      (readSensors s now b1 b2) now).1.stepClearUpdateMillisDown i j =
      s.stepClearUpdateMillisDown i j :=
    (hrow.2 j).trans (congrFun (congrFun hrec.2.2.2 i) j)
  have hfire : clearDownFires
      (advancerPart (readSensors s now b1 b2) now).1 now i j = true := by
    unfold clearDownFires
    rw [hstamp, hflag]
    simp [hdl]
  have hcs :=
    clearSequence_spec (advancerPart (readSensors s now b1 b2) now).1 now
  have htick1 : (tick s now b1 b2).1 =
      (clearSequence (advancerPart (readSensors s now b1 b2) now).1 now).1 := by
    simp only [tick, sequenceHandler]
  have htick2 : (tick s now b1 b2).2 =
      (advancerPart (readSensors s now b1 b2) now).2 ++
        (clearSequence (advancerPart (readSensors s now b1 b2) now).1
          now).2 := by
    simp only [tick, sequenceHandler]
  constructor
  · rw [htick1]
    have h3 := (hcs.1 i j hi hj).2
    rw [hfire] at h3
    simpa using h3
  · rw [htick2]
    refine List.mem_append_right _ ?_
    rw [hcs.2]
    refine List.mem_flatten.mpr
      ⟨_, List.mem_map.mpr ⟨(i, j), (mem_stepPairs i j).mpr ⟨hi, hj⟩, rfl⟩, ?_⟩
    cases hcu : clearUpFires
        (advancerPart (readSensors s now b1 b2) now).1 now i j <;>
      simp [hcu, hfire, clearStep]

theorem upBusy_congr (t s : SysState)
    (h1 : t.sequence_active_up = s.sequence_active_up)
    (h2 : t.upSeq_active = s.upSeq_active) : upBusy t = upBusy s := by
  unfold upBusy
  rw [anyActiveUp_congr t s h1, allClearedUp_congr t s h2]

theorem downBusy_congr (t s : SysState)
    (h1 : t.sequence_active_down = s.sequence_active_down)
    (h2 : t.downSeq_active = s.downSeq_active) : downBusy t = downBusy s := by
  unfold downBusy
  rw [anyActiveDown_congr t s h1, allClearedDown_congr t s h2]

theorem sequenceHandler_upQuiet (s : SysState) (now : Nat)
    (h1 : anySequenceActiveUp s = false)
    (h2 : allStepsClearedUp s = true) :
    anySequenceActiveUp (sequenceHandler s now).1 = false ∧
    allStepsClearedUp (sequenceHandler s now).1 = true := by
  have hadv : (advancerPart s now).1.sequence_active_up =
      s.sequence_active_up ∧
      (advancerPart s now).1.upSeq_active = s.upSeq_active := by
    simp only [advancerPart, h1, Bool.false_eq_true, if_false]
    split
    · have hdm := downSequence_misc s now
      exact ⟨hdm.1, hdm.2.2.2.2.1⟩
    · exact ⟨rfl, rfl⟩
  have hcm := clearSequence_misc (advancerPart s now).1 now
  have hsh : (sequenceHandler s now).1 =
      (clearSequence (advancerPart s now).1 now).1 := by
    simp only [sequenceHandler]
  constructor
  · rw [hsh, anyActiveUp_congr _ _ (hcm.1.trans hadv.1)]
    exact h1
  · rw [hsh, allClearedUp_true_iff]
    intro i hi j hj
    have h3 := ((clearSequence_spec (advancerPart s now).1 now).1 i j hi hj).1
    rw [h3]
    have hflag : (advancerPart s now).1.upSeq_active i j = false := by
      rw [congrFun (congrFun hadv.2 i) j]
      exact (allClearedUp_true_iff s).mp h2 i hi j hj
    rw [hflag]
    split <;> rfl

theorem sequenceHandler_downQuiet (s : SysState) (now : Nat)
    (h1 : anySequenceActiveDown s = false)
    (h2 : allStepsClearedDown s = true) :
    anySequenceActiveDown (sequenceHandler s now).1 = false ∧
    allStepsClearedDown (sequenceHandler s now).1 = true := by
  have hadv : (advancerPart s now).1.sequence_active_down =
      s.sequence_active_down ∧
      (advancerPart s now).1.downSeq_active = s.downSeq_active := by
    simp only [advancerPart]
    split
    · have hum := upSequence_misc s now
      have hanyd : anySequenceActiveDown (upSequence s now).1 = false :=
        (anyActiveDown_congr _ _ hum.1).trans h1
      simp only [hanyd, Bool.false_eq_true, if_false]
      exact ⟨hum.1, hum.2.2.2.2.1⟩
    · simp [h1]
  have hcm := clearSequence_misc (advancerPart s now).1 now
  have hsh : (sequenceHandler s now).1 =
      (clearSequence (advancerPart s now).1 now).1 := by
    simp only [sequenceHandler]
  constructor
  · rw [hsh, anyActiveDown_congr _ _ (hcm.2.2.2.2.1.trans hadv.1)]
    exact h1
  · rw [hsh, allClearedDown_true_iff]
    intro i hi j hj
    have h3 := ((clearSequence_spec (advancerPart s now).1 now).1 i j hi hj).2
    rw [h3]
    have hflag : (advancerPart s now).1.downSeq_active i j = false := by
      rw [congrFun (congrFun hadv.2 i) j]
      exact (allClearedDown_true_iff s).mp h2 i hi j hj
    rw [hflag]
    split <;> rfl

theorem readSensors_excl (s : SysState) (now : Nat) (b1 b2 : Bool)
    (h : ¬(upBusy s = true ∧ downBusy s = true)) :
    ¬(upBusy (readSensors s now b1 b2) = true ∧
      downBusy (readSensors s now b1 b2) = true) := by
  rw [readSensors_eq]
  split
  · rename_i hU
    have hgate : anySequenceActiveDown s = false ∧
        allStepsClearedDown s = true := by
      unfold acceptedUp at hU
      simp only [Bool.and_eq_true] at hU
      exact ⟨by simpa using hU.1.1.1, hU.1.1.2⟩
    have hdb : downBusy s = false := by
      unfold downBusy
      rw [hgate.1, hgate.2]
      rfl
    have htm := triggerUpSequence_misc
      { s with sensorUpdateMillis := now, stripClearMillis := now } now
    have hcongr : downBusy (triggerUpSequence
        { s with sensorUpdateMillis := now, stripClearMillis := now } now) =
        downBusy s := downBusy_congr _ _ htm.1 htm.2.2.2.2.1
    intro hc
    rw [hcongr, hdb] at hc
    cases hc.2
  · split
    · rename_i hU hD
      have hgate : anySequenceActiveUp s = false ∧
          allStepsClearedUp s = true := by
        unfold acceptedDown at hD
        simp only [Bool.and_eq_true] at hD
        exact ⟨by simpa using hD.1.1.1, hD.1.1.2⟩
      have hub : upBusy s = false := by
        unfold upBusy
        rw [hgate.1, hgate.2]
        rfl
      have htm := triggerDownSequence_misc
        { s with sensorUpdateMillis := now, stripClearMillis := now } now
      have hcongr : upBusy (triggerDownSequence
          { s with sensorUpdateMillis := now, stripClearMillis := now } now) =
          upBusy s := upBusy_congr _ _ htm.1 htm.2.2.2.2.1
      intro hc
      rw [hcongr, hub] at hc
      cases hc.1
    · exact h

theorem advancerPart_upSlot_of_notfire (s : SysState) (now : Nat) (i : Nat)
    (hf : upFires s now i = false) :
    (advancerPart s now).1.sequence_active_up i = s.sequence_active_up i ∧
    (advancerPart s now).1.currentStep i = s.currentStep i ∧
    (advancerPart s now).1.stepUpdateMillis i = s.stepUpdateMillis i := by
  simp only [advancerPart]
  split
  · have hup : (upSequence s now).1.sequence_active_up i =
        s.sequence_active_up i ∧
        (upSequence s now).1.currentStep i = s.currentStep i ∧
        (upSequence s now).1.stepUpdateMillis i = s.stepUpdateMillis i := by
      by_cases hi : i < MAX_ACTIVE_SEQUENCES
      · have hag := ((upSequence_spec s now).1 i hi).1 hf
        exact ⟨hag.1, hag.2.1, hag.2.2.1⟩
      · have hfr := upFold_fst_other now (List.range MAX_ACTIVE_SEQUENCES)
          (s, []) i (by simpa using hi)
        exact ⟨hfr.1, hfr.2.1, hfr.2.2.1⟩
    split
    · have hdm := downSequence_misc (upSequence s now).1 now
      exact ⟨(congrFun hdm.1 i).trans hup.1, (congrFun hdm.2.1 i).trans hup.2.1,
        (congrFun hdm.2.2.1 i).trans hup.2.2⟩
    · exact hup
  · split
    · have hdm := downSequence_misc s now
      exact ⟨congrFun hdm.1 i, congrFun hdm.2.1 i, congrFun hdm.2.2.1 i⟩
    · exact ⟨rfl, rfl, rfl⟩

theorem advancerPart_downSlot_of_notfire (s : SysState) (now : Nat) (i : Nat)
    (hf : downFires s now i = false) :
    (advancerPart s now).1.sequence_active_down i =
      s.sequence_active_down i ∧
    (advancerPart s now).1.currentStepDown i = s.currentStepDown i ∧
    (advancerPart s now).1.stepUpdateMillisDown i =
      s.stepUpdateMillisDown i := by
  simp only [advancerPart]
  split
  · have hum := upSequence_misc s now
    have hfq : downFires (upSequence s now).1 now i = downFires s now i := by
      unfold downFires
      rw [hum.1, hum.2.1, hum.2.2.1]
    split
    · have hdn : (downSequence (upSequence s now).1 now).1.sequence_active_down
          i = (upSequence s now).1.sequence_active_down i ∧
          (downSequence
            (upSequence s now).1 now).1.currentStepDown i =
            (upSequence s now).1.currentStepDown i ∧
          (downSequence
            (upSequence s now).1 now).1.stepUpdateMillisDown i =
            (upSequence s now).1.stepUpdateMillisDown i := by
        by_cases hi : i < MAX_ACTIVE_SEQUENCES
        · have hag := ((downSequence_spec (upSequence s now).1 now).1 i hi).1
            (hfq.trans hf)
          exact ⟨hag.1, hag.2.1, hag.2.2.1⟩
        · have hfr := downFold_fst_other now (List.range MAX_ACTIVE_SEQUENCES)
            ((upSequence s now).1, []) i (by simpa using hi)
          exact ⟨hfr.1, hfr.2.1, hfr.2.2.1⟩
      exact ⟨hdn.1.trans (congrFun hum.1 i), hdn.2.1.trans (congrFun hum.2.1 i),
        hdn.2.2.trans (congrFun hum.2.2.1 i)⟩
    · exact ⟨congrFun hum.1 i, congrFun hum.2.1 i, congrFun hum.2.2.1 i⟩
  · split
    · have hdn : (downSequence s now).1.sequence_active_down i =
          s.sequence_active_down i ∧
          (downSequence s now).1.currentStepDown i = s.currentStepDown i ∧
          (downSequence s now).1.stepUpdateMillisDown i =
            s.stepUpdateMillisDown i := by
        by_cases hi : i < MAX_ACTIVE_SEQUENCES
        · have hag := ((downSequence_spec s now).1 i hi).1 hf
          exact ⟨hag.1, hag.2.1, hag.2.2.1⟩
        · have hfr := downFold_fst_other now (List.range MAX_ACTIVE_SEQUENCES)
            (s, []) i (by simpa using hi)
          exact ⟨hfr.1, hfr.2.1, hfr.2.2.1⟩
      exact hdn
    · exact ⟨rfl, rfl, rfl⟩

theorem tick_upSlot_inactive (s : SysState) (now : Nat) (b1 b2 : Bool)
    (i : Nat) (ha : s.sequence_active_up i = false) :
    (tick s now b1 b2).1.sequence_active_up i = false ∨
    ((tick s now b1 b2).1.sequence_active_up i = true ∧
      (tick s now b1 b2).1.currentStep i = 0) := by
  have htick : (tick s now b1 b2).1 =
      (clearSequence (advancerPart (readSensors s now b1 b2) now).1 now).1 := by
    simp only [tick, sequenceHandler]
  have hcm :=
    clearSequence_misc (advancerPart (readSensors s now b1 b2) now).1 now
  rcases readSensors_inactive_upSlot s now b1 b2 i ha with h | h
  · have hf : upFires (readSensors s now b1 b2) now i = false :=
      upFires_false_cases _ now i (Or.inl h)
    have hadv :=
      advancerPart_upSlot_of_notfire (readSensors s now b1 b2) now i hf
    exact Or.inl (by
      rw [htick]
      exact (congrFun hcm.1 i).trans (hadv.1.trans h))
  · have hf : upFires (readSensors s now b1 b2) now i = false :=
      upFires_false_cases _ now i (Or.inr h.2.2)
    have hadv :=
      advancerPart_upSlot_of_notfire (readSensors s now b1 b2) now i hf
    refine Or.inr ⟨?_, ?_⟩
    · rw [htick]
      exact (congrFun hcm.1 i).trans (hadv.1.trans h.1)
    · rw [htick]
      exact (congrFun hcm.2.1 i).trans (hadv.2.1.trans h.2.1)

theorem tick_downSlot (s : SysState) (now : Nat) (b1 b2 : Bool) (i : Nat)
    (hi : i < MAX_ACTIVE_SEQUENCES)
    (ha : s.sequence_active_down i = true) :
    (downFires s now i = false →
      (tick s now b1 b2).1.sequence_active_down i = true ∧
      (tick s now b1 b2).1.currentStepDown i = s.currentStepDown i) ∧
    (downFires s now i = true →
      (tick s now b1 b2).1.currentStepDown i =
        (if s.currentStepDown i - 1 = 0 then NUM_OF_STEPS
         else s.currentStepDown i - 1) ∧
      (tick s now b1 b2).1.sequence_active_down i =
        (if s.currentStepDown i - 1 = 0 then false else true)) := by
  have hfr := readSensors_downSlot_frame s now b1 b2 i ha
  have haMid : (readSensors s now b1 b2).sequence_active_down i = true :=
    hfr.1.trans ha
  have hfeq : downFires (readSensors s now b1 b2) now i =
      downFires s now i := by
    unfold downFires
    rw [hfr.1, hfr.2.1, hfr.2.2]
  have htick : (tick s now b1 b2).1 =
      (clearSequence (advancerPart (readSensors s now b1 b2) now).1 now).1 := by
    simp only [tick, sequenceHandler]
  have hcm :=
    clearSequence_misc (advancerPart (readSensors s now b1 b2) now).1 now
  -- advancer effect on an active descending slot
  have hAny : anySequenceActiveDown (readSensors s now b1 b2) = true :=
    anyActiveDown_of _ i hi haMid
  constructor
  · intro hf
    have hadv := advancerPart_downSlot_of_notfire (readSensors s now b1 b2)
      now i (hfeq.trans hf)
    rw [htick]
    exact ⟨(congrFun hcm.2.2.2.2.1 i).trans (hadv.1.trans haMid),
      (congrFun hcm.2.2.2.2.2.1 i).trans (hadv.2.1.trans hfr.2.1)⟩
  · intro hf
    -- the advancer runs `downSequence` on the post-up state
    have hadv : (advancerPart (readSensors s now b1 b2) now).1.currentStepDown
        i = (if (readSensors s now b1 b2).currentStepDown i - 1 = 0 then
          NUM_OF_STEPS else (readSensors s now b1 b2).currentStepDown i - 1) ∧
        (advancerPart (readSensors s now b1 b2) now).1.sequence_active_down
        i = (if (readSensors s now b1 b2).currentStepDown i - 1 = 0 then
          false else true) := by
      simp only [advancerPart]
      split
      · have hum := upSequence_misc (readSensors s now b1 b2)
          now
        have hfq : downFires (upSequence (readSensors s now b1 b2) now).1 now
            i = downFires (readSensors s now b1 b2) now i := by
          unfold downFires
          rw [hum.1, hum.2.1, hum.2.2.1]
        have hAny2 : anySequenceActiveDown
            (upSequence (readSensors s now b1 b2) now).1 = true :=
          (anyActiveDown_congr _ _ hum.1).trans hAny
        simp only [hAny2, if_true]
        have hag := ((downSequence_spec
          (upSequence (readSensors s now b1 b2) now).1 now).1 i hi).2
          (hfq.trans (hfeq.trans hf))
        rw [congrFun hum.2.1 i] at hag
        exact ⟨hag.2.1, hag.2.2.1⟩
      · simp only [hAny, if_true]
        have hag := ((downSequence_spec (readSensors s now b1 b2) now).1
          i hi).2 (hfeq.trans hf)
        exact ⟨hag.2.1, hag.2.2.1⟩
    rw [hfr.2.1] at hadv
    rw [htick]
    exact ⟨(congrFun hcm.2.2.2.2.2.1 i).trans hadv.1,
      (congrFun hcm.2.2.2.2.1 i).trans hadv.2⟩

theorem tick_downSlot_inactive (s : SysState) (now : Nat) (b1 b2 : Bool)
    (i : Nat) (ha : s.sequence_active_down i = false) :
    (tick s now b1 b2).1.sequence_active_down i = false ∨
    ((tick s now b1 b2).1.sequence_active_down i = true ∧
      (tick s now b1 b2).1.currentStepDown i = NUM_OF_STEPS) := by
  have htick : (tick s now b1 b2).1 =
      (clearSequence (advancerPart (readSensors s now b1 b2) now).1 now).1 := by
    simp only [tick, sequenceHandler]
  have hcm :=
    clearSequence_misc (advancerPart (readSensors s now b1 b2) now).1 now
  rcases readSensors_inactive_downSlot s now b1 b2 i ha with h | h
  · have hf : downFires (readSensors s now b1 b2) now i = false :=
      downFires_false_cases _ now i (Or.inl h)
    have hadv :=
      advancerPart_downSlot_of_notfire (readSensors s now b1 b2) now i hf
    exact Or.inl (by
      rw [htick]
      exact (congrFun hcm.2.2.2.2.1 i).trans (hadv.1.trans h))
  · have hf : downFires (readSensors s now b1 b2) now i = false :=
      downFires_false_cases _ now i (Or.inr h.2.2)
    have hadv :=
      advancerPart_downSlot_of_notfire (readSensors s now b1 b2) now i hf
    refine Or.inr ⟨?_, ?_⟩
    · rw [htick]
      exact (congrFun hcm.2.2.2.2.1 i).trans (hadv.1.trans h.1)
    · rw [htick]
      exact (congrFun hcm.2.2.2.2.2.1 i).trans (hadv.2.1.trans h.2.1)

theorem reachable_bounds (s : SysState) (h : Reachable s) :
    ∀ i, i < MAX_ACTIVE_SEQUENCES →
      (s.sequence_active_up i = true →
        s.currentStep i < NUM_OF_STEPS) ∧
      (s.sequence_active_down i = true →
        0 < s.currentStepDown i ∧ s.currentStepDown i ≤ NUM_OF_STEPS) := by
  induction h with
  | init =>
    intro i hi
    constructor
    · intro hact
      cases hact
    · intro hact
      cases hact
  | step s now b1 b2 hr ih =>
    intro i hi
    constructor
    · intro hact
      cases hup : s.sequence_active_up i with
      | false =>
        rcases tick_upSlot_inactive s now b1 b2 i hup with h | h
        · rw [hact] at h
          cases h
        · rw [h.2]
          decide
      | true =>
        have hts := tick_upSlot s now b1 b2 i hi hup
        have hbound := (ih i hi).1 hup
        cases hf : upFires s now i with
        | false =>
          rw [(hts.2.1 hf).2.1]
          exact hbound
        | true =>
          have h2 := hts.2.2 hf
          by_cases hN : s.currentStep i + 1 = NUM_OF_STEPS
          · exact absurd (hact.symm.trans (h2.2.2.trans (if_pos hN)))
              (by decide)
          · rw [if_neg hN] at h2
            rw [h2.2.1]
            omega
    · intro hact
      cases hdn : s.sequence_active_down i with
      | false =>
        rcases tick_downSlot_inactive s now b1 b2 i hdn with h | h
        · rw [hact] at h
          cases h
        · rw [h.2]
          decide
      | true =>
        have hts := tick_downSlot s now b1 b2 i hi hdn
        have hbound := (ih i hi).2 hdn
        cases hf : downFires s now i with
        | false =>
          rw [(hts.1 hf).2]
          exact hbound
        | true =>
          have h2 := hts.2 hf
          by_cases h0 : s.currentStepDown i - 1 = 0
          · exact absurd (hact.symm.trans (h2.2.trans (if_pos h0)))
              (by decide)
          · rw [if_neg h0] at h2
            rw [h2.1]
            omega

/-! ### Debounce bookkeeping -/

theorem acceptedDown_of_acceptedUp (s : SysState) (now : Nat)
    (b1 b2 : Bool) (hU : acceptedUp s now b1 = true) :
    acceptedDown s now b1 b2 = false := by
  unfold acceptedDown
  rw [if_pos hU, Nat.sub_self]
  simp [DEBOUNCE_DELAY]

theorem accepted_debounce (s : SysState) (now : Nat) (b1 b2 : Bool)
    (h : acceptedUp s now b1 = true ∨ acceptedDown s now b1 b2 = true) :
    DEBOUNCE_DELAY ≤ now - s.sensorUpdateMillis := by
  rcases h with h | h
  · unfold acceptedUp at h
    simp only [Bool.and_eq_true, decide_eq_true_eq] at h
    exact h.2
  · unfold acceptedDown at h
    simp only [Bool.and_eq_true, decide_eq_true_eq] at h
    rcases h with ⟨-, hdeb⟩
    by_cases hU : acceptedUp s now b1 = true
    · rw [if_pos hU, Nat.sub_self] at hdeb
      exact absurd hdeb (by decide)
    · rwa [if_neg hU] at hdeb

theorem readSensors_sensor (s : SysState) (now : Nat) (b1 b2 : Bool) :
    (readSensors s now b1 b2).sensorUpdateMillis =
      (if acceptedCount s now b1 b2 = 0 then s.sensorUpdateMillis
       else now) := by
  rw [readSensors_eq]
  by_cases hU : acceptedUp s now b1 = true
  · rw [if_pos hU]
    have hcount : acceptedCount s now b1 b2 ≠ 0 := by
      unfold acceptedCount
      rw [if_pos hU]
      omega
    rw [if_neg hcount]
    have hm := triggerUpSequence_misc
      { s with sensorUpdateMillis := now, stripClearMillis := now } now
    exact hm.2.2.2.2.2.2.2.1
  · rw [if_neg hU]
    by_cases hD : acceptedDown s now b1 b2 = true
    · rw [if_pos hD]
      have hcount : acceptedCount s now b1 b2 ≠ 0 := by
        unfold acceptedCount
        rw [if_pos hD]
        omega
      rw [if_neg hcount]
      have hm := triggerDownSequence_misc
        { s with sensorUpdateMillis := now, stripClearMillis := now } now
      exact hm.2.2.2.2.2.2.2.1
    · rw [if_neg hD]
      have hcount : acceptedCount s now b1 b2 = 0 := by
        unfold acceptedCount
        rw [if_neg hU, if_neg hD]
      rw [if_pos hcount]

theorem acceptedCount_le_one (s : SysState) (now : Nat) (b1 b2 : Bool) :
    acceptedCount s now b1 b2 ≤ 1 := by
  unfold acceptedCount
  by_cases hU : acceptedUp s now b1 = true
  · rw [if_pos hU, acceptedDown_of_acceptedUp s now b1 b2 hU]
    simp
  · rw [if_neg hU]
    split <;> simp

theorem two_reads_le_one (s : SysState) (now1 now2 : Nat)
    (b1 b2 c1 c2 : Bool) (h12 : now1 ≤ now2)
    (hlt : now2 - now1 < DEBOUNCE_DELAY) :
    acceptedCount s now1 b1 b2 +
      acceptedCount (readSensors s now1 b1 b2) now2 c1 c2 ≤ 1 := by
  by_cases h0 : acceptedCount s now1 b1 b2 = 0
  · rw [h0]
    simpa using acceptedCount_le_one (readSensors s now1 b1 b2) now2 c1 c2
  · have hs : (readSensors s now1 b1 b2).sensorUpdateMillis = now1 := by
      rw [readSensors_sensor, if_neg h0]
    have hdec : decide (DEBOUNCE_DELAY ≤ now2 - now1) = false :=
      decide_eq_false (by omega)
    have hU : acceptedUp (readSensors s now1 b1 b2) now2 c1 = false := by
      unfold acceptedUp
      rw [hs, hdec]
      simp
    have hD : acceptedDown (readSensors s now1 b1 b2) now2 c1 c2 = false := by
      unfold acceptedDown
      rw [hU]
      simp only [Bool.false_eq_true, if_false, hs, hdec]
      simp
    have hc2 : acceptedCount (readSensors s now1 b1 b2) now2 c1 c2 = 0 := by
      unfold acceptedCount
      rw [hU, hD]
      simp
    rw [hc2]
    have := acceptedCount_le_one s now1 b1 b2
    omega

/-! ### Allocation counting -/

theorem firstFreeUp_of_full (s : SysState)
    (h : ∀ i, i < MAX_ACTIVE_SEQUENCES → s.sequence_active_up i = true) :
    firstFreeUp s = none := by
  have hr : List.range MAX_ACTIVE_SEQUENCES = [0, 1, 2] := rfl
  unfold firstFreeUp
  rw [hr]
  simp [List.find?, h 0 (by decide), h 1 (by decide), h 2 (by decide)]

theorem firstFreeDown_of_full (s : SysState)
    (h : ∀ i, i < MAX_ACTIVE_SEQUENCES → s.sequence_active_down i = true) :
    firstFreeDown s = none := by
  have hr : List.range MAX_ACTIVE_SEQUENCES = [0, 1, 2] := rfl
  unfold firstFreeDown
  rw [hr]
  simp [List.find?, h 0 (by decide), h 1 (by decide), h 2 (by decide)]

theorem filter_range_le_one (p : Nat → Bool) (k : Nat)
    (h : ∀ m, m ≠ k → p m = false) :
    ((List.range MAX_ACTIVE_SEQUENCES).filter p).length ≤ 1 := by
  have hr : List.range MAX_ACTIVE_SEQUENCES = [0, 1, 2] := rfl
  rw [hr]
  rcases Nat.lt_or_ge k 3 with hk | hk
  · interval_cases k
    · cases hp : p 0 <;>
        simp [List.filter, hp, h 1 (by decide), h 2 (by decide)]
    · cases hp : p 1 <;>
        simp [List.filter, hp, h 0 (by decide), h 2 (by decide)]
    · cases hp : p 2 <;>
        simp [List.filter, hp, h 0 (by decide), h 1 (by decide)]
  · simp [List.filter, h 0 (by omega), h 1 (by omega), h 2 (by omega)]

theorem filter_range_zero (p : Nat → Bool) (h : ∀ m, p m = false) :
    ((List.range MAX_ACTIVE_SEQUENCES).filter p).length = 0 := by
  have hr : List.range MAX_ACTIVE_SEQUENCES = [0, 1, 2] := rfl
  rw [hr]
  simp [List.filter, h 0, h 1, h 2]

theorem allocCount_self (s : SysState) : allocCount s s = 0 := by
  unfold allocCount
  rw [filter_range_zero _ (fun m => by
      cases s.sequence_active_up m <;> rfl),
    filter_range_zero _ (fun m => by
      cases s.sequence_active_down m <;> rfl)]

theorem allocCount_triggerUp (s t : SysState) (now : Nat)
    (hup : t.sequence_active_up = (triggerUpSequence
      { s with sensorUpdateMillis := now, stripClearMillis := now }
      now).sequence_active_up)
    (hdown : t.sequence_active_down = s.sequence_active_down) :
    allocCount s t ≤ 1 := by
  unfold allocCount
  have hzero : ((List.range MAX_ACTIVE_SEQUENCES).filter
      (fun i => !s.sequence_active_down i && t.sequence_active_down i)).length
      = 0 :=
    filter_range_zero _ (fun m => by
      rw [congrFun hdown m]
      cases s.sequence_active_down m <;> rfl)
  rw [hzero]
  cases hf : firstFreeUp
      { s with sensorUpdateMillis := now, stripClearMillis := now } with
  | none =>
    have : ∀ m, (!s.sequence_active_up m && t.sequence_active_up m) = false := by
      intro m
      rw [congrFun hup m]
      simp only [triggerUpSequence, hf]
      cases s.sequence_active_up m <;> rfl
    rw [filter_range_zero _ this]
    simp
  | some k =>
    have : ∀ m, m ≠ k →
        (!s.sequence_active_up m && t.sequence_active_up m) = false := by
      intro m hm
      rw [congrFun hup m]
      simp only [triggerUpSequence, hf, Function.update_apply, if_neg hm]
      cases s.sequence_active_up m <;> rfl
    simpa using filter_range_le_one _ k this

theorem allocCount_triggerDown (s t : SysState) (now : Nat)
    (hdown : t.sequence_active_down = (triggerDownSequence
      { s with sensorUpdateMillis := now, stripClearMillis := now }
      now).sequence_active_down)
    (hup : t.sequence_active_up = s.sequence_active_up) :
    allocCount s t ≤ 1 := by
  unfold allocCount
  have hzero : ((List.range MAX_ACTIVE_SEQUENCES).filter
      (fun i => !s.sequence_active_up i && t.sequence_active_up i)).length
      = 0 :=
    filter_range_zero _ (fun m => by
      rw [congrFun hup m]
      cases s.sequence_active_up m <;> rfl)
  rw [hzero]
  cases hf : firstFreeDown
      { s with sensorUpdateMillis := now, stripClearMillis := now } with
  | none =>
    have : ∀ m,
        (!s.sequence_active_down m && t.sequence_active_down m) = false := by
      intro m
      rw [congrFun hdown m]
      simp only [triggerDownSequence, hf]
      cases s.sequence_active_down m <;> rfl
    rw [filter_range_zero _ this]
    simp
  | some k =>
    have : ∀ m, m ≠ k →
        (!s.sequence_active_down m && t.sequence_active_down m) = false := by
      intro m hm
      rw [congrFun hdown m]
      simp only [triggerDownSequence, hf, Function.update_apply, if_neg hm]
      cases s.sequence_active_down m <;> rfl
    simpa using filter_range_le_one _ k this

/-! ### Claim theorems -/

/-- C1: an ascending sensor trigger allocates a slot only when no descending
slot is active, no descending step record is lit, and the shared debounce
window has elapsed; symmetrically for descending triggers; and in particular
when `allStepsClearedDown` is false an ascending trigger allocates nothing,
even with no descending slot active (and symmetrically). -/
theorem c1_trigger_gate (s : SysState) (now : Nat) (b1 b2 : Bool) :
    ((∃ i, i < MAX_ACTIVE_SEQUENCES ∧ s.sequence_active_up i = false ∧
        (readSensors s now b1 b2).sequence_active_up i = true) →
      anySequenceActiveDown s = false ∧ allStepsClearedDown s = true ∧
        DEBOUNCE_DELAY ≤ now - s.sensorUpdateMillis) ∧
    ((∃ i, i < MAX_ACTIVE_SEQUENCES ∧ s.sequence_active_down i = false ∧
        (readSensors s now b1 b2).sequence_active_down i = true) →
      anySequenceActiveUp s = false ∧ allStepsClearedUp s = true ∧
        DEBOUNCE_DELAY ≤ now - s.sensorUpdateMillis) ∧
    (allStepsClearedDown s = false →
      ∀ i, (readSensors s now b1 b2).sequence_active_up i =
        s.sequence_active_up i) ∧
    (allStepsClearedUp s = false →
      ∀ i, (readSensors s now b1 b2).sequence_active_down i =
        s.sequence_active_down i) := by
  have hdebU := accepted_debounce s now b1 b2
  rw [readSensors_eq]
  by_cases hU : acceptedUp s now b1 = true
  · rw [if_pos hU]
    have hgate : anySequenceActiveDown s = false ∧
        allStepsClearedDown s = true := by
      unfold acceptedUp at hU
      simp only [Bool.and_eq_true] at hU
      exact ⟨by simpa using hU.1.1.1, hU.1.1.2⟩
    have hm := triggerUpSequence_misc
      { s with sensorUpdateMillis := now, stripClearMillis := now } now
    refine ⟨fun _ => ⟨hgate.1, hgate.2, hdebU (Or.inl hU)⟩, ?_, ?_, ?_⟩
    · rintro ⟨i, -, hfalse, htrue⟩
      rw [congrFun hm.1 i] at htrue
      rw [hfalse] at htrue
      cases htrue
    · intro hf
      rw [hgate.2] at hf
      cases hf
    · intro _ i
      exact congrFun hm.1 i
  · rw [if_neg hU]
    by_cases hD : acceptedDown s now b1 b2 = true
    · rw [if_pos hD]
      have hgate : anySequenceActiveUp s = false ∧
          allStepsClearedUp s = true := by
        unfold acceptedDown at hD
        simp only [Bool.and_eq_true] at hD
        exact ⟨by simpa using hD.1.1.1, hD.1.1.2⟩
      have hm := triggerDownSequence_misc
        { s with sensorUpdateMillis := now, stripClearMillis := now } now
      refine ⟨?_, fun _ => ⟨hgate.1, hgate.2, hdebU (Or.inr hD)⟩, ?_, ?_⟩
      · rintro ⟨i, -, hfalse, htrue⟩
        rw [congrFun hm.1 i] at htrue
        rw [hfalse] at htrue
        cases htrue
      · intro _ i
        exact congrFun hm.1 i
      · intro hf
        rw [hgate.2] at hf
        cases hf
    · rw [if_neg hD]
      refine ⟨?_, ?_, fun _ i => rfl, fun _ i => rfl⟩
      · rintro ⟨i, -, hfalse, htrue⟩
        rw [hfalse] at htrue
        cases htrue
      · rintro ⟨i, -, hfalse, htrue⟩
        rw [hfalse] at htrue
        cases htrue

/-- Witness for C1: with the descending record (0,0) still lit,
`allStepsClearedDown` is false and an ascending trigger at time 5000 with
SENSOR1 active changes no ascending slot. -/
theorem c1_trigger_gate_witness :
    allStepsClearedDown stateDownLit = false ∧
    (readSensors stateDownLit 5000 true false).sequence_active_up 0 =
      stateDownLit.sequence_active_up 0 :=
  ⟨by decide,
    (c1_trigger_gate stateDownLit 5000 true false).2.2.1 (by decide) 0⟩

/-- C4: allocation scans the chosen direction's slots in index order, takes
the first free slot, initializes it (`active=true`, direction's starting
step, `lastAdvanceTime=now`), leaves every other slot untouched, does nothing
when the pool is full, and a single trigger-gate evaluation activates at most
one slot. -/
theorem c4_allocator (s : SysState) (now : Nat) :
    (∀ k, firstFreeUp s = some k →
      k < MAX_ACTIVE_SEQUENCES ∧ s.sequence_active_up k = false ∧
      (∀ m, m < k → s.sequence_active_up m = true) ∧
      (triggerUpSequence s now).sequence_active_up k = true ∧
      (triggerUpSequence s now).currentStep k = 0 ∧
      (triggerUpSequence s now).stepUpdateMillis k = now ∧
      (∀ m, m ≠ k →
        (triggerUpSequence s now).sequence_active_up m =
          s.sequence_active_up m ∧
        (triggerUpSequence s now).currentStep m = s.currentStep m ∧
        (triggerUpSequence s now).stepUpdateMillis m =
          s.stepUpdateMillis m)) ∧
    (firstFreeUp s = none → triggerUpSequence s now = s) ∧
    (∀ k, firstFreeDown s = some k →
      k < MAX_ACTIVE_SEQUENCES ∧ s.sequence_active_down k = false ∧
      (∀ m, m < k → s.sequence_active_down m = true) ∧
      (triggerDownSequence s now).sequence_active_down k = true ∧
      (triggerDownSequence s now).currentStepDown k = NUM_OF_STEPS ∧
      (triggerDownSequence s now).stepUpdateMillisDown k = now ∧
      (∀ m, m ≠ k →
        (triggerDownSequence s now).sequence_active_down m =
          s.sequence_active_down m ∧
        (triggerDownSequence s now).currentStepDown m =
          s.currentStepDown m ∧
        (triggerDownSequence s now).stepUpdateMillisDown m =
          s.stepUpdateMillisDown m)) ∧
    (firstFreeDown s = none → triggerDownSequence s now = s) ∧
    (∀ b1 b2, allocCount s (readSensors s now b1 b2) ≤ 1) := by
  refine ⟨?_, ?_, ?_, ?_, ?_⟩
  · intro k hf
    obtain ⟨hk1, hk2, hk3⟩ := firstFreeUp_some s k hf
    refine ⟨hk1, hk2, hk3, ?_, ?_, ?_, ?_⟩
    · simp [triggerUpSequence, hf, Function.update_apply]
    · simp [triggerUpSequence, hf, Function.update_apply]
    · simp [triggerUpSequence, hf, Function.update_apply]
    · intro m hm
      refine ⟨?_, ?_, ?_⟩ <;>
        simp [triggerUpSequence, hf, Function.update_apply, hm]
  · intro hf
    simp [triggerUpSequence, hf]
  · intro k hf
    obtain ⟨hk1, hk2, hk3⟩ := firstFreeDown_some s k hf
    refine ⟨hk1, hk2, hk3, ?_, ?_, ?_, ?_⟩
    · simp [triggerDownSequence, hf, Function.update_apply]
    · simp [triggerDownSequence, hf, Function.update_apply]
    · simp [triggerDownSequence, hf, Function.update_apply]
    · intro m hm
      refine ⟨?_, ?_, ?_⟩ <;>
        simp [triggerDownSequence, hf, Function.update_apply, hm]
  · intro hf
    simp [triggerDownSequence, hf]
  · intro b1 b2
    rw [readSensors_eq]
    by_cases hU : acceptedUp s now b1 = true
    · rw [if_pos hU]
      refine allocCount_triggerUp s _ now rfl ?_
      exact (triggerUpSequence_misc
        { s with sensorUpdateMillis := now, stripClearMillis := now } now).1
    · rw [if_neg hU]
      by_cases hD : acceptedDown s now b1 b2 = true
      · rw [if_pos hD]
        refine allocCount_triggerDown s _ now rfl ?_
        exact (triggerDownSequence_misc
          { s with sensorUpdateMillis := now, stripClearMillis := now }
          now).1
      · rw [if_neg hD]
        rw [allocCount_self]
        decide

/-- Witness for C4: in a state with only slot 0 busy, the allocator picks
slot 1, initializes it, and a trigger evaluation performs at most one
allocation. -/
theorem c4_allocator_witness :
    firstFreeUp stateOneUp = some 1 ∧
    (triggerUpSequence stateOneUp 700).sequence_active_up 1 = true ∧
    (triggerUpSequence stateOneUp 700).currentStep 1 = 0 ∧
    (triggerUpSequence stateOneUp 700).stepUpdateMillis 1 = 700 ∧
    allocCount stateOneUp (readSensors stateOneUp 700 true true) ≤ 1 := by
  have h := (c4_allocator stateOneUp 700).1 1 (by decide)
  exact ⟨by decide, h.2.2.2.1, h.2.2.2.2.1, h.2.2.2.2.2.1,
    (c4_allocator stateOneUp 700).2.2.2.2 true true⟩

/-- C5 (amended): when a trigger passes the gate and the debounce check but
the chosen direction's pool is full, no slot changes and nothing is queued,
but the shared debounce timestamps (`sensorUpdateMillis`, `stripClearMillis`)
are still stamped with the trigger time. -/
theorem c5_pool_full_amended (s : SysState) (now : Nat) (b1 b2 : Bool) :
    ((∀ i, i < MAX_ACTIVE_SEQUENCES → s.sequence_active_up i = true) →
      ∀ i, (readSensors s now b1 b2).sequence_active_up i =
          s.sequence_active_up i ∧
        (readSensors s now b1 b2).currentStep i = s.currentStep i ∧
        (readSensors s now b1 b2).stepUpdateMillis i =
          s.stepUpdateMillis i) ∧
    ((∀ i, i < MAX_ACTIVE_SEQUENCES → s.sequence_active_down i = true) →
      ∀ i, (readSensors s now b1 b2).sequence_active_down i =
          s.sequence_active_down i ∧
        (readSensors s now b1 b2).currentStepDown i = s.currentStepDown i ∧
        (readSensors s now b1 b2).stepUpdateMillisDown i =
          s.stepUpdateMillisDown i) ∧
    ((acceptedUp s now b1 = true ∨ acceptedDown s now b1 b2 = true) →
      (readSensors s now b1 b2).sensorUpdateMillis = now ∧
      (readSensors s now b1 b2).stripClearMillis = now) := by
  rw [readSensors_eq]
  by_cases hU : acceptedUp s now b1 = true
  · rw [if_pos hU]
    have hm := triggerUpSequence_misc
      { s with sensorUpdateMillis := now, stripClearMillis := now } now
    refine ⟨?_, ?_, ?_⟩
    · intro hfull i
      have hnone : firstFreeUp
          { s with sensorUpdateMillis := now, stripClearMillis := now } =
          none := firstFreeUp_of_full _ (fun m hm2 => hfull m hm2)
      simp [triggerUpSequence, hnone]
    · intro _ i
      exact ⟨congrFun hm.1 i, congrFun hm.2.1 i, congrFun hm.2.2.1 i⟩
    · intro _
      exact ⟨hm.2.2.2.2.2.2.2.1, hm.2.2.2.2.2.2.2.2⟩
  · rw [if_neg hU]
    by_cases hD : acceptedDown s now b1 b2 = true
    · rw [if_pos hD]
      have hm := triggerDownSequence_misc
        { s with sensorUpdateMillis := now, stripClearMillis := now } now
      refine ⟨?_, ?_, ?_⟩
      · intro _ i
        exact ⟨congrFun hm.1 i, congrFun hm.2.1 i, congrFun hm.2.2.1 i⟩
      · intro hfull i
        have hnone : firstFreeDown
            { s with sensorUpdateMillis := now, stripClearMillis := now } =
            none := firstFreeDown_of_full _ (fun m hm2 => hfull m hm2)
        simp [triggerDownSequence, hnone]
      · intro _
        exact ⟨hm.2.2.2.2.2.2.2.1, hm.2.2.2.2.2.2.2.2⟩
    · rw [if_neg hD]
      refine ⟨fun _ i => ⟨rfl, rfl, rfl⟩, fun _ i => ⟨rfl, rfl, rfl⟩, ?_⟩
      rintro (h | h)
      · exact absurd h hU
      · exact absurd h hD

/-- Witness for C5 (amended): at `stateFullUp` a passing ascending trigger
changes no ascending slot but stamps the debounce timestamp. -/
theorem c5_pool_full_witness :
    (readSensors stateFullUp 2000 true false).sequence_active_up 0 =
      stateFullUp.sequence_active_up 0 ∧
    (readSensors stateFullUp 2000 true false).sensorUpdateMillis = 2000 :=
  ⟨((c5_pool_full_amended stateFullUp 2000 true false).1 (by decide) 0).1,
    ((c5_pool_full_amended stateFullUp 2000 true false).2.2
      (Or.inl (by decide))).1⟩

/-- Counterexample for C5 as frozen: at `stateFullUp` (ascending pool full,
descending quiescent, debounce elapsed) a SENSOR1 trigger passes the gate and
the debounce check yet the system state is NOT left unchanged: the shared
debounce timestamp moves from 0 to 2000. -/
theorem c5_counterexample :
    (∀ i, i < MAX_ACTIVE_SEQUENCES →
      stateFullUp.sequence_active_up i = true) ∧
    anySequenceActiveDown stateFullUp = false ∧
    allStepsClearedDown stateFullUp = true ∧
    DEBOUNCE_DELAY ≤ 2000 - stateFullUp.sensorUpdateMillis ∧
    acceptedUp stateFullUp 2000 true = true ∧
    (readSensors stateFullUp 2000 true false).sensorUpdateMillis ≠
      stateFullUp.sensorUpdateMillis := by decide

/-- C6: a trigger of either direction is accepted only when the shared
debounce window has elapsed; the shared timestamp is updated exactly on
acceptance; one `readSensors` call accepts at most one trigger; and two
sensor reads within `DEBOUNCE_DELAY` of each other accept at most one
trigger in total. -/
theorem c6_debounce :
    (∀ (s : SysState) (now : Nat) (b1 b2 : Bool),
      (acceptedUp s now b1 = true ∨ acceptedDown s now b1 b2 = true) →
        DEBOUNCE_DELAY ≤ now - s.sensorUpdateMillis) ∧
    (∀ (s : SysState) (now : Nat) (b1 b2 : Bool),
      (readSensors s now b1 b2).sensorUpdateMillis =
        (if acceptedCount s now b1 b2 = 0 then s.sensorUpdateMillis
         else now)) ∧
    (∀ (s : SysState) (now : Nat) (b1 b2 : Bool),
      acceptedCount s now b1 b2 ≤ 1) ∧
    (∀ (s : SysState) (now1 now2 : Nat) (b1 b2 c1 c2 : Bool),
      now1 ≤ now2 → now2 - now1 < DEBOUNCE_DELAY →
      acceptedCount s now1 b1 b2 +
        acceptedCount (readSensors s now1 b1 b2) now2 c1 c2 ≤ 1) :=
  ⟨accepted_debounce, readSensors_sensor, acceptedCount_le_one,
    two_reads_le_one⟩

/-- Witness for C6: a concrete first accepted read at time 2000 followed by a
read at time 3000 (inside the debounce window) yields at most one acceptance,
and the accepted read satisfied the debounce inequality. -/
theorem c6_debounce_witness :
    acceptedCount initState 2000 true false +
      acceptedCount (readSensors initState 2000 true false) 3000 true false
      ≤ 1 ∧
    DEBOUNCE_DELAY ≤ 2000 - initState.sensorUpdateMillis :=
  ⟨c6_debounce.2.2.2 initState 2000 3000 true false true false (by decide)
      (by decide),
    c6_debounce.1 initState 2000 true false (Or.inl (by decide))⟩

/-- C10: in every state reachable from power-on, the two directions are never
simultaneously in flight: it is impossible that (an ascending slot is active
or an ascending record is lit) and at the same time (a descending slot is
active or a descending record is lit). -/
theorem c10_directional_mutual_exclusion (s : SysState) (h : Reachable s) :
    ¬(upBusy s = true ∧ downBusy s = true) := by
  induction h with
  | init =>
    intro hc
    exact absurd hc.1 (by decide)
  | step s now b1 b2 hr ih =>
    have hmid := readSensors_excl s now b1 b2 ih
    intro hc
    have htick : (tick s now b1 b2).1 =
        (sequenceHandler (readSensors s now b1 b2) now).1 := rfl
    cases hub : upBusy (readSensors s now b1 b2) with
    | false =>
      have hq1 : anySequenceActiveUp (readSensors s now b1 b2) = false := by
        cases ha : anySequenceActiveUp (readSensors s now b1 b2)
        · rfl
        · exfalso
          unfold upBusy at hub
          rw [ha] at hub
          cases hub
      have hq2 : allStepsClearedUp (readSensors s now b1 b2) = true := by
        cases hcl : allStepsClearedUp (readSensors s now b1 b2)
        · exfalso
          unfold upBusy at hub
          rw [hq1, hcl] at hub
          cases hub
        · rfl
      have hqq := sequenceHandler_upQuiet (readSensors s now b1 b2) now hq1 hq2
      have hfinal : upBusy (tick s now b1 b2).1 = false := by
        rw [htick]
        unfold upBusy
        rw [hqq.1, hqq.2]
        rfl
      rw [hc.1] at hfinal
      cases hfinal
    | true =>
      have hdb : downBusy (readSensors s now b1 b2) = false := by
        cases hdb2 : downBusy (readSensors s now b1 b2) with
        | false => rfl
        | true => exact absurd ⟨hub, hdb2⟩ hmid
      have hq1 : anySequenceActiveDown (readSensors s now b1 b2) = false := by
        cases ha : anySequenceActiveDown (readSensors s now b1 b2)
        · rfl
        · exfalso
          unfold downBusy at hdb
          rw [ha] at hdb
          cases hdb
      have hq2 : allStepsClearedDown (readSensors s now b1 b2) = true := by
        cases hcl : allStepsClearedDown (readSensors s now b1 b2)
        · exfalso
          unfold downBusy at hdb
          rw [hq1, hcl] at hdb
          cases hdb
        · rfl
      have hqq := sequenceHandler_downQuiet (readSensors s now b1 b2) now
        hq1 hq2
      have hfinal : downBusy (tick s now b1 b2).1 = false := by
        rw [htick]
        unfold downBusy
        rw [hqq.1, hqq.2]
        rfl
      rw [hc.2] at hfinal
      cases hfinal

/-- Witness for C10: the invariant instantiated at the power-on state. -/
theorem c10_directional_mutual_exclusion_witness :
    ¬(upBusy initState = true ∧ downBusy initState = true) :=
  c10_directional_mutual_exclusion initState Reachable.init

/-- C2: on an advancer pass, every active slot whose per-slot interval has
elapsed illuminates exactly one step and advances — ascending writes bus
index `currentStep+1`, records a clear entry at `currentStep`, increments,
and frees at `NUM_OF_STEPS` (resetting to 0); descending writes bus index
`currentStep`, records at `currentStep-1`, decrements, and frees at 0
(resetting to `NUM_OF_STEPS`); the pass output is exactly the concatenation
of one `showStep` block per firing slot; and in every reachable state an
active slot with elapsed interval does fire. -/
theorem c2_advancer (s : SysState) (now : Nat) :
    (∀ i, i < MAX_ACTIVE_SEQUENCES →
      (upFires s now i = true →
        BusOp.write (s.currentStep i + 1) 255 ∈ (upSequence s now).2 ∧
        (upSequence s now).1.stepClearUpdateMillisUp i (s.currentStep i) =
          now ∧
        (upSequence s now).1.upSeq_active i (s.currentStep i) = true ∧
        (upSequence s now).1.stepUpdateMillis i = now ∧
        (s.currentStep i + 1 = NUM_OF_STEPS →
          (upSequence s now).1.sequence_active_up i = false ∧
          (upSequence s now).1.currentStep i = 0) ∧
        (s.currentStep i + 1 ≠ NUM_OF_STEPS →
          (upSequence s now).1.sequence_active_up i = true ∧
          (upSequence s now).1.currentStep i = s.currentStep i + 1)) ∧
      (downFires s now i = true →
        BusOp.write (s.currentStepDown i) 255 ∈ (downSequence s now).2 ∧
        (downSequence s now).1.stepClearUpdateMillisDown i
          (s.currentStepDown i - 1) = now ∧
        (downSequence s now).1.downSeq_active i (s.currentStepDown i - 1) =
          true ∧
        (downSequence s now).1.stepUpdateMillisDown i = now ∧
        (s.currentStepDown i - 1 = 0 →
          (downSequence s now).1.sequence_active_down i = false ∧
          (downSequence s now).1.currentStepDown i = NUM_OF_STEPS) ∧
        (s.currentStepDown i - 1 ≠ 0 →
          (downSequence s now).1.sequence_active_down i = true ∧
          (downSequence s now).1.currentStepDown i =
            s.currentStepDown i - 1))) ∧
    (upSequence s now).2 = ((List.range MAX_ACTIVE_SEQUENCES).map (fun k =>
      if upFires s now k then showStep (s.currentStep k + 1)
      else [])).flatten ∧
    (downSequence s now).2 = ((List.range MAX_ACTIVE_SEQUENCES).map (fun k =>
      if downFires s now k then showStep (s.currentStepDown k)
      else [])).flatten ∧
    (Reachable s →
      ∀ i, i < MAX_ACTIVE_SEQUENCES →
        (s.sequence_active_up i = true →
          STEP_UPDATE_DELAY < now - s.stepUpdateMillis i →
          upFires s now i = true) ∧
        (s.sequence_active_down i = true →
          STEP_UPDATE_DELAY < now - s.stepUpdateMillisDown i →
          downFires s now i = true)) := by
  refine ⟨?_, (upSequence_spec s now).2, (downSequence_spec s now).2, ?_⟩
  · intro i hi
    constructor
    · intro hf
      have hs := ((upSequence_spec s now).1 i hi).2 hf
      refine ⟨?_, ?_, ?_, hs.1, ?_, ?_⟩
      · rw [(upSequence_spec s now).2]
        refine List.mem_flatten.mpr ⟨_, List.mem_map.mpr
          ⟨i, List.mem_range.mpr hi, rfl⟩, ?_⟩
        rw [if_pos hf]
        simp [showStep]
      · rw [hs.2.2.2.1 (s.currentStep i), if_pos rfl]
      · rw [hs.2.2.2.2 (s.currentStep i), if_pos rfl]
      · intro hN
        exact ⟨hs.2.2.1.trans (if_pos hN), hs.2.1.trans (if_pos hN)⟩
      · intro hN
        exact ⟨hs.2.2.1.trans (if_neg hN), hs.2.1.trans (if_neg hN)⟩
    · intro hf
      have hs := ((downSequence_spec s now).1 i hi).2 hf
      refine ⟨?_, ?_, ?_, hs.1, ?_, ?_⟩
      · rw [(downSequence_spec s now).2]
        refine List.mem_flatten.mpr ⟨_, List.mem_map.mpr
          ⟨i, List.mem_range.mpr hi, rfl⟩, ?_⟩
        rw [if_pos hf]
        simp [showStep]
      · rw [hs.2.2.2.1 (s.currentStepDown i - 1), if_pos rfl]
      · rw [hs.2.2.2.2 (s.currentStepDown i - 1), if_pos rfl]
      · intro h0
        exact ⟨hs.2.2.1.trans (if_pos h0), hs.2.1.trans (if_pos h0)⟩
      · intro h0
        exact ⟨hs.2.2.1.trans (if_neg h0), hs.2.1.trans (if_neg h0)⟩
  · intro hreach i hi
    have hb := reachable_bounds s hreach i hi
    constructor
    · intro hact helapsed
      have hlt : s.currentStep i < NUM_OF_STEPS := hb.1 hact
      simp [upFires, hact, helapsed, hlt]
    · intro hact helapsed
      have hlt : 0 < s.currentStepDown i := (hb.2 hact).1
      simp [downFires, hact, helapsed, hlt]

/-- Witness for C2: slot 0 of `stateOneUp` fires at time 600 and emits the
bus write for step 1; and in the reachable state obtained by one accepted
trigger at time 2000, the active slot with elapsed interval fires at 3000. -/
theorem c2_advancer_witness :
    BusOp.write (stateOneUp.currentStep 0 + 1) 255 ∈
      (upSequence stateOneUp 600).2 ∧
    upFires (tick initState 2000 true false).1 3000 0 = true :=
  ⟨(((c2_advancer stateOneUp 600).1 0 (by decide)).1 (by decide)).1,
    ((c2_advancer (tick initState 2000 true false).1 3000).2.2.2
      (Reachable.step initState 2000 true false Reachable.init) 0
      (by decide)).1 (by decide) (by decide)⟩

/-- C3: the clear sweep resets every record (of either direction) whose
`litByThisSlot` flag is set and whose clear delay has elapsed, issuing a
zero-intensity bus write for that step; untriggered records are untouched;
its output is exactly the per-record blocks in scan order; `sequenceHandler`
runs the sweep even when no slot is active; and a lit record is cleared by a
full `loop()` pass even when its owning slot is already freed. -/
theorem c3_clear_sweep (s : SysState) (now : Nat) :
    (∀ i j, i < MAX_ACTIVE_SEQUENCES → j < NUM_OF_STEPS →
      (s.upSeq_active i j = true →
        STEP_CLEAR_DELAY < now - s.stepClearUpdateMillisUp i j →
        (clearSequence s now).1.upSeq_active i j = false ∧
        BusOp.write (j + 1) 0 ∈ (clearSequence s now).2) ∧
      (clearUpFires s now i j = false →
        (clearSequence s now).1.upSeq_active i j = s.upSeq_active i j) ∧
      (s.downSeq_active i j = true →
        STEP_CLEAR_DELAY < now - s.stepClearUpdateMillisDown i j →
        (clearSequence s now).1.downSeq_active i j = false ∧
        BusOp.write (j + 1) 0 ∈ (clearSequence s now).2) ∧
      (clearDownFires s now i j = false →
        (clearSequence s now).1.downSeq_active i j =
          s.downSeq_active i j)) ∧
    ((clearSequence s now).2 = (stepPairs.map (fun p =>
      (if clearUpFires s now p.1 p.2 then clearStep (p.2 + 1) else []) ++
      (if clearDownFires s now p.1 p.2 then clearStep (p.2 + 1)
       else []))).flatten) ∧
    (anySequenceActiveUp s = false → anySequenceActiveDown s = false →
      (sequenceHandler s now).1 = (clearSequence s now).1 ∧
      (sequenceHandler s now).2 = (clearSequence s now).2) ∧
    (∀ b1 b2 i j, i < MAX_ACTIVE_SEQUENCES → j < NUM_OF_STEPS →
      (s.sequence_active_up i = false → s.upSeq_active i j = true →
        STEP_CLEAR_DELAY < now - s.stepClearUpdateMillisUp i j →
        (tick s now b1 b2).1.upSeq_active i j = false ∧
        BusOp.write (j + 1) 0 ∈ (tick s now b1 b2).2) ∧
      (s.sequence_active_down i = false → s.downSeq_active i j = true →
        STEP_CLEAR_DELAY < now - s.stepClearUpdateMillisDown i j →
        (tick s now b1 b2).1.downSeq_active i j = false ∧
        BusOp.write (j + 1) 0 ∈ (tick s now b1 b2).2)) := by
  refine ⟨?_, (clearSequence_spec s now).2, ?_, ?_⟩
  · intro i j hi hj
    refine ⟨?_, ?_, ?_, ?_⟩
    · intro hlit hdl
      have hfire : clearUpFires s now i j = true := by
        unfold clearUpFires
        rw [hlit]
        simp [hdl]
      constructor
      · have h3 := ((clearSequence_spec s now).1 i j hi hj).1
        rw [hfire] at h3
        simpa using h3
      · rw [(clearSequence_spec s now).2]
        refine List.mem_flatten.mpr ⟨_, List.mem_map.mpr
          ⟨(i, j), (mem_stepPairs i j).mpr ⟨hi, hj⟩, rfl⟩, ?_⟩
        simp [hfire, clearStep]
    · intro hfire
      have h3 := ((clearSequence_spec s now).1 i j hi hj).1
      rw [hfire] at h3
      simpa using h3
    · intro hlit hdl
      have hfire : clearDownFires s now i j = true := by
        unfold clearDownFires
        rw [hlit]
        simp [hdl]
      constructor
      · have h3 := ((clearSequence_spec s now).1 i j hi hj).2
        rw [hfire] at h3
        simpa using h3
      · rw [(clearSequence_spec s now).2]
        refine List.mem_flatten.mpr ⟨_, List.mem_map.mpr
          ⟨(i, j), (mem_stepPairs i j).mpr ⟨hi, hj⟩, rfl⟩, ?_⟩
        cases hcu : clearUpFires s now i j <;> simp [hcu, hfire, clearStep]
    · intro hfire
      have h3 := ((clearSequence_spec s now).1 i j hi hj).2
      rw [hfire] at h3
      simpa using h3
  · intro h1 h2
    constructor <;>
      simp only [sequenceHandler, advancerPart, h1, h2, Bool.false_eq_true,
        if_false, List.nil_append]
  · intro b1 b2 i j hi hj
    exact ⟨tick_deadUpRecord s now b1 b2 i j hi hj,
      tick_deadDownRecord s now b1 b2 i j hi hj⟩

/-- Witness for C3: the lit ascending record (0,0) of `stateUpLit` (owning
slot already free) is cleared both by the sweep alone and by a full pass at
time 5000, with a zero write for bus channel 1. -/
theorem c3_clear_sweep_witness :
    (clearSequence stateUpLit 5000).1.upSeq_active 0 0 = false ∧
    BusOp.write 1 0 ∈ (clearSequence stateUpLit 5000).2 ∧
    (tick stateUpLit 5000 false false).1.upSeq_active 0 0 = false := by
  have h1 := (((c3_clear_sweep stateUpLit 5000).1 0 0 (by decide)
    (by decide)).1 (by decide) (by decide))
  have h2 := ((((c3_clear_sweep stateUpLit 5000).2.2.2 false false 0 0
    (by decide) (by decide)).1 (by decide) (by decide) (by decide))).1
  exact ⟨h1.1, h1.2, h2⟩

/-! ### Bus stream structure -/

theorem upSequence_writes (s : SysState) (now n v : Nat)
    (h : BusOp.write n v ∈ (upSequence s now).2) : v = 255 := by
  rw [(upSequence_spec s now).2] at h
  rcases List.mem_flatten.mp h with ⟨l, hl, hx⟩
  rcases List.mem_map.mp hl with ⟨k, -, rfl⟩
  by_cases hf : upFires s now k = true
  · rw [if_pos hf] at hx
    simp [showStep] at hx
    exact hx.2
  · rw [if_neg hf] at hx
    cases hx

theorem downSequence_writes (s : SysState) (now n v : Nat)
    (h : BusOp.write n v ∈ (downSequence s now).2) : v = 255 := by
  rw [(downSequence_spec s now).2] at h
  rcases List.mem_flatten.mp h with ⟨l, hl, hx⟩
  rcases List.mem_map.mp hl with ⟨k, -, rfl⟩
  by_cases hf : downFires s now k = true
  · rw [if_pos hf] at hx
    simp [showStep] at hx
    exact hx.2
  · rw [if_neg hf] at hx
    cases hx

theorem clearSequence_writes (s : SysState) (now n v : Nat)
    (h : BusOp.write n v ∈ (clearSequence s now).2) : v = 0 := by
  rw [(clearSequence_spec s now).2] at h
  rcases List.mem_flatten.mp h with ⟨l, hl, hx⟩
  rcases List.mem_map.mp hl with ⟨p, -, rfl⟩
  rcases List.mem_append.mp hx with hx | hx
  · by_cases hf : clearUpFires s now p.1 p.2 = true
    · rw [if_pos hf] at hx
      simp [clearStep] at hx
      exact hx.2
    · rw [if_neg hf] at hx
      cases hx
  · by_cases hf : clearDownFires s now p.1 p.2 = true
    · rw [if_pos hf] at hx
      simp [clearStep] at hx
      exact hx.2
    · rw [if_neg hf] at hx
      cases hx

theorem advancerPart_writes (s : SysState) (now n v : Nat)
    (h : BusOp.write n v ∈ (advancerPart s now).2) : v = 255 := by
  simp only [advancerPart, List.mem_append] at h
  rcases h with h | h
  · split at h
    · exact upSequence_writes s now n v h
    · simp at h
  · split at h
    · split at h
      · exact downSequence_writes _ now n v h
      · simp at h
    · split at h
      · exact downSequence_writes _ now n v h
      · simp at h

theorem wfs_block (n v : Nat) (l : List BusOp) :
    wellFormedStream
      (BusOp.write n v :: BusOp.commit :: BusOp.commit :: l) =
      wellFormedStream l := rfl

theorem wfs_good_flatten (L : List (List BusOp))
    (h : ∀ x ∈ L, x = [] ∨
      (∃ n v, x = [BusOp.write n v, BusOp.commit, BusOp.commit]) ∨
      (∃ n v m w, x = [BusOp.write n v, BusOp.commit, BusOp.commit,
        BusOp.write m w, BusOp.commit, BusOp.commit])) :
    wellFormedStream L.flatten = true := by
  induction L with
  | nil => rfl
  | cons a t ih =>
    have ht := ih (fun x hx => h x (List.mem_cons_of_mem a hx))
    rcases h a (List.mem_cons_self a t) with rfl | ⟨n, v, rfl⟩ |
      ⟨n, v, m, w, rfl⟩
    · simpa using ht
    · simpa [List.flatten_cons, wfs_block] using ht
    · simpa [List.flatten_cons, wfs_block] using ht

theorem advancerPart_out_flatten (s : SysState) (now : Nat) :
    ∃ L : List (List BusOp), (advancerPart s now).2 = L.flatten ∧
      ∀ x ∈ L, x = [] ∨
        ∃ n v, x = [BusOp.write n v, BusOp.commit, BusOp.commit] := by
  have hshape1 : ∀ x ∈ (List.range MAX_ACTIVE_SEQUENCES).map (fun k =>
      if upFires s now k then showStep (s.currentStep k + 1) else []),
      x = [] ∨ ∃ n v, x = [BusOp.write n v, BusOp.commit, BusOp.commit] := by
    intro x hx
    rcases List.mem_map.mp hx with ⟨k, -, rfl⟩
    by_cases hf : upFires s now k = true
    · rw [if_pos hf]
      exact Or.inr ⟨s.currentStep k + 1, 255, rfl⟩
    · rw [if_neg hf]
      exact Or.inl rfl
  have hshape2 : ∀ (t : SysState), ∀ x ∈
      (List.range MAX_ACTIVE_SEQUENCES).map (fun k =>
        if downFires t now k then showStep (t.currentStepDown k) else []),
      x = [] ∨ ∃ n v, x = [BusOp.write n v, BusOp.commit, BusOp.commit] := by
    intro t x hx
    rcases List.mem_map.mp hx with ⟨k, -, rfl⟩
    by_cases hf : downFires t now k = true
    · rw [if_pos hf]
      exact Or.inr ⟨t.currentStepDown k, 255, rfl⟩
    · rw [if_neg hf]
      exact Or.inl rfl
  simp only [advancerPart]
  split
  · split
    · refine ⟨((List.range MAX_ACTIVE_SEQUENCES).map (fun k =>
          if upFires s now k then showStep (s.currentStep k + 1)
          else [])) ++
        ((List.range MAX_ACTIVE_SEQUENCES).map (fun k =>
          if downFires (upSequence s now).1 now k then
            showStep ((upSequence s now).1.currentStepDown k) else [])),
        ?_, ?_⟩
      · rw [(upSequence_spec s now).2,
          (downSequence_spec (upSequence s now).1 now).2,
          List.flatten_append]
      · intro x hx
        rcases List.mem_append.mp hx with hx | hx
        · exact hshape1 x hx
        · exact hshape2 _ x hx
    · refine ⟨_, ?_, hshape1⟩
      rw [(upSequence_spec s now).2]
      simp
  · split
    · refine ⟨(List.range MAX_ACTIVE_SEQUENCES).map (fun k =>
          if downFires s now k then showStep (s.currentStepDown k)
          else []), ?_, hshape2 s⟩
      show ([] : List BusOp) ++ (downSequence s now).2 = _
      rw [(downSequence_spec s now).2]
      simp
    · exact ⟨[], rfl, fun x hx => nomatch hx⟩

theorem clearSequence_out_flatten (s : SysState) (now : Nat) :
    ∃ L : List (List BusOp), (clearSequence s now).2 = L.flatten ∧
      ∀ x ∈ L, x = [] ∨
        (∃ n v, x = [BusOp.write n v, BusOp.commit, BusOp.commit]) ∨
        (∃ n v m w, x = [BusOp.write n v, BusOp.commit, BusOp.commit,
          BusOp.write m w, BusOp.commit, BusOp.commit]) := by
  refine ⟨_, (clearSequence_spec s now).2, ?_⟩
  intro x hx
  rcases List.mem_map.mp hx with ⟨p, -, rfl⟩
  by_cases hu : clearUpFires s now p.1 p.2 = true <;>
    by_cases hd : clearDownFires s now p.1 p.2 = true
  · rw [if_pos hu, if_pos hd]
    exact Or.inr (Or.inr ⟨p.2 + 1, 0, p.2 + 1, 0, rfl⟩)
  · rw [if_pos hu, if_neg hd]
    exact Or.inr (Or.inl ⟨p.2 + 1, 0, by simp [clearStep]⟩)
  · rw [if_neg hu, if_pos hd]
    exact Or.inr (Or.inl ⟨p.2 + 1, 0, by simp [clearStep]⟩)
  · rw [if_neg hu, if_neg hd]
    exact Or.inl rfl

theorem tick_out_wf (s : SysState) (now : Nat) (b1 b2 : Bool) :
    wellFormedStream (tick s now b1 b2).2 = true := by
  have hout : (tick s now b1 b2).2 =
      (advancerPart (readSensors s now b1 b2) now).2 ++
        (clearSequence (advancerPart (readSensors s now b1 b2) now).1
          now).2 := by
    simp only [tick, sequenceHandler]
  obtain ⟨L1, hL1, hs1⟩ :=
    advancerPart_out_flatten (readSensors s now b1 b2) now
  obtain ⟨L2, hL2, hs2⟩ := clearSequence_out_flatten
    (advancerPart (readSensors s now b1 b2) now).1 now
  rw [hout, hL1, hL2, ← List.flatten_append]
  refine wfs_good_flatten (L1 ++ L2) ?_
  intro x hx
  rcases List.mem_append.mp hx with hx | hx
  · rcases hs1 x hx with h | h
    · exact Or.inl h
    · exact Or.inr (Or.inl h)
  · exact hs2 x hx

theorem advancerPart_downRecord_of_fire (s : SysState) (now : Nat) (i : Nat)
    (hi : i < MAX_ACTIVE_SEQUENCES) (hf : downFires s now i = true) :
    (advancerPart s now).1.downSeq_active i (s.currentStepDown i - 1) =
      true ∧
    (advancerPart s now).1.stepClearUpdateMillisDown i
      (s.currentStepDown i - 1) = now := by
  have hact : s.sequence_active_down i = true := by
    have hf2 := hf
    simp only [downFires, Bool.and_eq_true] at hf2
    exact hf2.1.1
  simp only [advancerPart]
  split
  · have hum := upSequence_misc s now
    have hAny2 : anySequenceActiveDown (upSequence s now).1 = true :=
      (anyActiveDown_congr _ _ hum.1).trans (anyActiveDown_of s i hi hact)
    simp only [hAny2, if_true]
    have hfq : downFires (upSequence s now).1 now i = downFires s now i := by
      unfold downFires
      rw [hum.1, hum.2.1, hum.2.2.1]
    have hag := ((downSequence_spec (upSequence s now).1 now).1 i hi).2
      (hfq.trans hf)
    rw [congrFun hum.2.1 i] at hag
    constructor
    · rw [hag.2.2.2.2 (s.currentStepDown i - 1), if_pos rfl]
    · rw [hag.2.2.2.1 (s.currentStepDown i - 1), if_pos rfl]
  · simp only [anyActiveDown_of s i hi hact, if_true]
    have hag := ((downSequence_spec s now).1 i hi).2 hf
    constructor
    · rw [hag.2.2.2.2 (s.currentStepDown i - 1), if_pos rfl]
    · rw [hag.2.2.2.1 (s.currentStepDown i - 1), if_pos rfl]

/-- C8: within one pass all step illuminations precede the clear sweep (the
output is an advancer segment of full-intensity writes followed by a sweep
segment of zero-intensity writes), and a record illuminated during a pass is
never cleared by the same pass's sweep. -/
theorem c8_illumination_before_clear (s : SysState) (now : Nat)
    (b1 b2 : Bool) :
    (∃ o1 o2, (tick s now b1 b2).2 = o1 ++ o2 ∧
      (∀ n v, BusOp.write n v ∈ o1 → v = 255) ∧
      (∀ n v, BusOp.write n v ∈ o2 → v = 0)) ∧
    (∀ i, i < MAX_ACTIVE_SEQUENCES →
      (upFires (readSensors s now b1 b2) now i = true →
        (tick s now b1 b2).1.upSeq_active i
          ((readSensors s now b1 b2).currentStep i) = true) ∧
      (downFires (readSensors s now b1 b2) now i = true →
        (tick s now b1 b2).1.downSeq_active i
          ((readSensors s now b1 b2).currentStepDown i - 1) = true)) := by
  have htick1 : (tick s now b1 b2).1 =
      (clearSequence (advancerPart (readSensors s now b1 b2) now).1 now).1 := by
    simp only [tick, sequenceHandler]
  have htick2 : (tick s now b1 b2).2 =
      (advancerPart (readSensors s now b1 b2) now).2 ++
        (clearSequence (advancerPart (readSensors s now b1 b2) now).1
          now).2 := by
    simp only [tick, sequenceHandler]
  constructor
  · exact ⟨(advancerPart (readSensors s now b1 b2) now).2,
      (clearSequence (advancerPart (readSensors s now b1 b2) now).1 now).2,
      htick2, fun n v h => advancerPart_writes _ now n v h,
      fun n v h => clearSequence_writes _ now n v h⟩
  · intro i hi
    constructor
    · intro hf
      have hact : (readSensors s now b1 b2).sequence_active_up i = true := by
        have hf2 := hf
        simp only [upFires, Bool.and_eq_true] at hf2
        exact hf2.1.1
      have hc : (readSensors s now b1 b2).currentStep i < NUM_OF_STEPS := by
        have hf2 := hf
        simp only [upFires, Bool.and_eq_true, decide_eq_true_eq] at hf2
        exact hf2.2
      have hadv := (advancerPart_upSlot_of_active (readSensors s now b1 b2)
        now i hi hact).2 hf
      have hflag : (advancerPart (readSensors s now b1 b2)
          now).1.upSeq_active i ((readSensors s now b1 b2).currentStep i) =
          true := by
        rw [hadv.2.2.2.2 ((readSensors s now b1 b2).currentStep i),
          if_pos rfl]
      have hstamp : (advancerPart (readSensors s now b1 b2)
          now).1.stepClearUpdateMillisUp i
          ((readSensors s now b1 b2).currentStep i) = now := by
        rw [hadv.2.2.2.1 ((readSensors s now b1 b2).currentStep i),
          if_pos rfl]
      have hfire : clearUpFires (advancerPart (readSensors s now b1 b2)
          now).1 now i ((readSensors s now b1 b2).currentStep i) = false := by
        unfold clearUpFires
        rw [hstamp, Nat.sub_self]
        rfl
      have h3 := ((clearSequence_spec (advancerPart
        (readSensors s now b1 b2) now).1 now).1 i _ hi hc).1
      rw [hfire] at h3
      rw [htick1, h3]
      simpa using hflag
    · intro hf
      have hrec := advancerPart_downRecord_of_fire (readSensors s now b1 b2)
        now i hi hf
      by_cases hj : (readSensors s now b1 b2).currentStepDown i - 1 <
          NUM_OF_STEPS
      · have hfire : clearDownFires (advancerPart (readSensors s now b1 b2)
            now).1 now i ((readSensors s now b1 b2).currentStepDown i - 1) =
            false := by
          unfold clearDownFires
          rw [hrec.2, Nat.sub_self]
          rfl
        have h3 := ((clearSequence_spec (advancerPart
          (readSensors s now b1 b2) now).1 now).1 i _ hi hj).2
        rw [hfire] at h3
        rw [htick1, h3]
        simpa using hrec.1
      · have h3 := (clearSequence_outside (advancerPart
          (readSensors s now b1 b2) now).1 now i _
          (fun hc => hj hc.2)).2
        rw [htick1, h3]
        exact hrec.1

/-- Witness for C8: a pass over `stateOneUp` at time 600 (slot 0 fires,
illuminating record (0,0)) leaves that record lit after the same pass's
sweep, and its output splits into full-intensity writes followed by
zero-intensity writes. -/
theorem c8_illumination_before_clear_witness :
    upFires (readSensors stateOneUp 600 false false) 600 0 = true ∧
    (tick stateOneUp 600 false false).1.upSeq_active 0
      ((readSensors stateOneUp 600 false false).currentStep 0) = true := by
  refine ⟨by decide, ?_⟩
  exact ((c8_illumination_before_clear stateOneUp 600 false false).2 0
    (by decide)).1 (by decide)

/-- C9: every logical write to the lighting bus is one `dmx.write` for the
target step immediately followed by exactly two consecutive frame commits:
`showStep`/`clearStep` have exactly this shape, and every pass's whole output
stream parses as a sequence of write-commit-commit blocks. -/
theorem c9_double_commit :
    (∀ n, showStep n = [BusOp.write n 255, BusOp.commit, BusOp.commit]) ∧
    (∀ n, clearStep n = [BusOp.write n 0, BusOp.commit, BusOp.commit]) ∧
    (∀ (s : SysState) (now : Nat) (b1 b2 : Bool),
      wellFormedStream (tick s now b1 b2).2 = true) :=
  ⟨fun _ => rfl, fun _ => rfl, tick_out_wf⟩

/-! ### Wave lifecycle -/

theorem waveRun_cons (i : Nat) (s : SysState) (now : Nat) (b1 b2 : Bool)
    (rest : List (Nat × Bool × Bool)) :
    waveRun i s ((now, b1, b2) :: rest) =
      (if (tick s now b1 b2).1.sequence_active_up i then
        ((if upFires (readSensors s now b1 b2) now i then [now] else []) ++
          (waveRun i (tick s now b1 b2).1 rest).1,
         (waveRun i (tick s now b1 b2).1 rest).2)
       else ((if upFires (readSensors s now b1 b2) now i then [now]
         else []), true)) := by
  simp only [waveRun]

theorem waveRun_spec (i : Nat) (hi : i < MAX_ACTIVE_SEQUENCES) :
    ∀ (inputs : List (Nat × Bool × Bool)) (s : SysState),
      s.sequence_active_up i = true → s.currentStep i < NUM_OF_STEPS →
      ((waveRun i s inputs).2 = true →
        (waveRun i s inputs).1.length + s.currentStep i = NUM_OF_STEPS) ∧
      List.Chain' (fun a b => a + STEP_UPDATE_DELAY + 1 ≤ b)
        (s.stepUpdateMillis i :: (waveRun i s inputs).1) := by
  intro inputs
  induction inputs with
  | nil =>
    intro s ha hc
    constructor
    · intro hfreed
      simp [waveRun] at hfreed
    · simp [waveRun]
  | cons inp rest ih =>
    intro s ha hc
    obtain ⟨now, b1, b2⟩ := inp
    have hsim := tick_upSlot s now b1 b2 i hi ha
    cases hf : upFires s now i with
    | false =>
      have hno := hsim.2.1 hf
      have hfm : upFires (readSensors s now b1 b2) now i = false :=
        hsim.1.trans hf
      have hrec := ih (tick s now b1 b2).1 hno.1
        (by rw [hno.2.1]; exact hc)
      rw [waveRun_cons]
      simp only [hfm, Bool.false_eq_true, if_false, hno.1, if_true,
        List.nil_append]
      constructor
      · intro hfreed
        rw [← hno.2.1]
        exact hrec.1 hfreed
      · rw [← hno.2.2]
        exact hrec.2
    | true =>
      have hyes := hsim.2.2 hf
      have hfm : upFires (readSensors s now b1 b2) now i = true :=
        hsim.1.trans hf
      have hgap : s.stepUpdateMillis i + STEP_UPDATE_DELAY + 1 ≤ now := by
        have hf2 := hf
        simp only [upFires, Bool.and_eq_true, decide_eq_true_eq] at hf2
        have := hf2.1.2
        omega
      by_cases hN : s.currentStep i + 1 = NUM_OF_STEPS
      · have hinact : (tick s now b1 b2).1.sequence_active_up i = false :=
          hyes.2.2.trans (if_pos hN)
        rw [waveRun_cons]
        simp only [hfm, if_true, hinact, Bool.false_eq_true, if_false]
        constructor
        · intro _
          simp only [List.length_singleton]
          omega
        · simp [List.chain'_cons, hgap]
      · have hact2 : (tick s now b1 b2).1.sequence_active_up i = true :=
          hyes.2.2.trans (if_neg hN)
        have hcs : (tick s now b1 b2).1.currentStep i = s.currentStep i + 1 :=
          hyes.2.1.trans (if_neg hN)
        have hrec := ih (tick s now b1 b2).1 hact2 (by rw [hcs]; omega)
        rw [waveRun_cons]
        simp only [hfm, if_true, hact2, List.singleton_append]
        constructor
        · intro hfreed
          have hlen := hrec.1 hfreed
          rw [hcs] at hlen
          simp only [List.length_cons]
          omega
        · have hch := hrec.2
          rw [hyes.1] at hch
          exact List.chain'_cons.mpr ⟨hgap, hch⟩

theorem chain_getLast_bound (K : Nat) :
    ∀ (l : List Nat) (x : Nat),
      List.Chain' (fun a b => a + K ≤ b) (x :: l) →
      ∀ y, l.getLast? = some y → x + l.length * K ≤ y := by
  intro l
  induction l with
  | nil =>
    intro x _ y hy
    simp at hy
  | cons a t ih =>
    intro x hch y hy
    have hxa : x + K ≤ a := (List.chain'_cons.mp hch).1
    have hcht := (List.chain'_cons.mp hch).2
    cases t with
    | nil =>
      simp only [List.getLast?_singleton, Option.some.injEq] at hy
      subst hy
      simpa using hxa
    | cons b u =>
      have hrec := ih a hcht y (by simpa using hy)
      simp only [List.length_cons] at hrec ⊢
      have h1 : (u.length + 1 + 1) * K = (u.length + 1) * K + 1 * K :=
        Nat.add_mul _ _ _
      have h2 : 1 * K = K := Nat.one_mul K
      omega

/-- C7: an ascending slot freshly allocated at time `T`, followed through an
arbitrary run, is freed after exactly `NUM_OF_STEPS` illumination events,
consecutive illuminations are at least `STEP_UPDATE_DELAY` apart, and the
freeing illumination happens no earlier than
`T + (NUM_OF_STEPS - 1) * STEP_UPDATE_DELAY`. -/
theorem c7_wave_lifecycle (s : SysState) (i T : Nat)
    (inputs : List (Nat × Bool × Bool))
    (hi : i < MAX_ACTIVE_SEQUENCES) (ha : s.sequence_active_up i = true)
    (hc : s.currentStep i = 0) (hT : s.stepUpdateMillis i = T) :
    ((waveRun i s inputs).2 = true →
      (waveRun i s inputs).1.length = NUM_OF_STEPS) ∧
    List.Chain' (fun a b => a + STEP_UPDATE_DELAY ≤ b)
      (T :: (waveRun i s inputs).1) ∧
    ((waveRun i s inputs).2 = true →
      ∃ tN, (waveRun i s inputs).1.getLast? = some tN ∧
        T + (NUM_OF_STEPS - 1) * STEP_UPDATE_DELAY ≤ tN) := by
  have hspec := waveRun_spec i hi inputs s ha (by rw [hc]; decide)
  rw [hc, hT] at hspec
  refine ⟨?_, ?_, ?_⟩
  · intro hfr
    have := hspec.1 hfr
    omega
  · exact hspec.2.imp (fun a b hab => by omega)
  · intro hfr
    have hlen : (waveRun i s inputs).1.length = 16 := by
      have := hspec.1 hfr
      have h16 : NUM_OF_STEPS = 16 := rfl
      omega
    cases hg : (waveRun i s inputs).1.getLast? with
    | none =>
      rw [List.getLast?_eq_none_iff] at hg
      rw [hg] at hlen
      simp at hlen
    | some y =>
      refine ⟨y, rfl, ?_⟩
      have hch : List.Chain' (fun a b => a + (STEP_UPDATE_DELAY + 1) ≤ b)
          (T :: (waveRun i s inputs).1) :=
        hspec.2.imp (fun a b hab => by omega)
      have hb := chain_getLast_bound (STEP_UPDATE_DELAY + 1)
        (waveRun i s inputs).1 T hch y hg
      rw [hlen] at hb
      have hD : STEP_UPDATE_DELAY = 550 := rfl
      have h16 : NUM_OF_STEPS = 16 := rfl
      rw [hD] at hb
      rw [h16, hD]
      omega

/-- Witness for C7: slot 0 of `stateOneUp` (allocated at time 0) run through
a single pass at time 600 yields one illumination at 600, satisfying the
spacing chain. -/
theorem c7_wave_lifecycle_witness :
    List.Chain' (fun a b => a + STEP_UPDATE_DELAY ≤ b)
      (0 :: (waveRun 0 stateOneUp [(600, false, false)]).1) :=
  (c7_wave_lifecycle stateOneUp 0 0 [(600, false, false)] (by decide) rfl
    rfl rfl).2.1
